import Mathlib

/-!
Shallow embedding of the rtos-ts cooperative scheduler core:
`src/lib/task.ts` (TaskManager), `src/lib/scheduler.ts` (Scheduler) and the
acorn-based task transformer (`RTOSParser`).  Machine state is modelled
functionally: each mutating method becomes a function from state to state
(paired with its boolean result where the source returns one).
-/

namespace RTOS

/-- Task states, from `src/lib/types.ts` (`TaskState`). -/
inductive TaskState
  | ready
  | running
  | blocked
  | suspended
deriving DecidableEq, Repr

/-- A value yielded by a task generator, as the scheduler classifies it:
either a delay marker `{delayTicks: d}` or any other value
(`result.value && typeof result.value === 'object' && result.value.delayTicks`
is the scheduler's test; a marker with `delayTicks = 0` is falsy there). -/
inductive YieldVal
  | marker (d : Int)
  | nonMarker
deriving DecidableEq, Repr

/-- One `generator.next()` outcome in a task body: either it yields a value
or it raises.  A generator past its last entry is done. -/
inductive StepRes
  | yielded (v : YieldVal)
  | raise
deriving DecidableEq, Repr

/-- A task body as the scheduler's `runTask` distinguishes them:
a generator (modelled by its remaining `next()` outcomes), the idle task's
plain function (whose body calls `this.yield()`), or a plain function with
no scheduler effect. -/
inductive TaskBody
  | gen (steps : List StepRes)
  | idleFn
  | noopFn
deriving DecidableEq, Repr

/-- Task control block (`TaskControlBlock` in `src/lib/types.ts`), restricted
to the fields the scheduler logic reads or writes. -/
structure TCB where
  handle : Nat
  name : String
  priority : Int
  state : TaskState
  delayTicks : Int
  blockedOn : Option String
  runCount : Nat
  body : TaskBody
deriving DecidableEq, Repr

/-- The `TaskManager` state from `src/lib/task.ts`: the task map (a JS `Map`
in insertion order, modelled as a list keyed by `handle`), the handle
counter, the running slot and the three membership lists. -/
structure TaskManager where
  tasks : List TCB
  nextHandle : Nat
  currentTask : Option Nat
  readyList : List Nat
  blockedList : List Nat
  suspendedList : List Nat
deriving DecidableEq, Repr

namespace TaskManager

/-- The initial `TaskManager` (field initialisers of the class). -/
def init : TaskManager :=
  { tasks := [], nextHandle := 1, currentTask := none,
    readyList := [], blockedList := [], suspendedList := [] }

/-- `this.tasks.get(handle)`. -/
def lookupTask (s : TaskManager) (h : Nat) : Option TCB :=
  s.tasks.find? (fun t => t.handle == h)

/-- In-place mutation of the TCB stored under `h` (JS mutates the object
held by the map). -/
def updateTask (s : TaskManager) (h : Nat) (f : TCB → TCB) : TaskManager :=
  { s with tasks := s.tasks.map (fun t => if t.handle == h then f t else t) }

/-- The insertion-position loop of `addToReadyList`: insert `h` (of priority
`p`) before the first entry whose task exists and has strictly lower
priority, else append. -/
def insertByPriority (s : TaskManager) (p : Int) (h : Nat) : List Nat → List Nat
  | [] => [h]
  | x :: xs =>
    match s.lookupTask x with
    | some tx => if p > tx.priority then h :: x :: xs else x :: s.insertByPriority p h xs
    | none => x :: s.insertByPriority p h xs

/-- `addToReadyList(handle)`: no-op when the task does not exist, otherwise
priority-ordered stable insertion. -/
def addToReadyList (s : TaskManager) (h : Nat) : TaskManager :=
  match s.lookupTask h with
  | none => s
  | some t => { s with readyList := s.insertByPriority t.priority h s.readyList }

/-- `createTask(name, fn, priority, stackSize, params)`: allocates the next
handle, stores a READY TCB and inserts it into the ready list. -/
def createTask (s : TaskManager) (name : String) (body : TaskBody) (priority : Int) :
    Nat × TaskManager :=
  let h := s.nextHandle
  let tcb : TCB :=
    { handle := h, name := name, priority := priority, state := .ready,
      delayTicks := 0, blockedOn := none, runCount := 0, body := body }
  let s1 : TaskManager := { s with tasks := s.tasks ++ [tcb], nextHandle := s.nextHandle + 1 }
  (h, s1.addToReadyList h)

/-- `deleteTask(handle)`: remove from every list, clear the running slot if
it pointed at the task, drop the TCB. -/
def deleteTask (s : TaskManager) (h : Nat) : Bool × TaskManager :=
  match s.lookupTask h with
  | none => (false, s)
  | some _ =>
    let s1 : TaskManager :=
      { s with readyList := s.readyList.erase h,
               blockedList := s.blockedList.erase h,
               suspendedList := s.suspendedList.erase h }
    let s2 : TaskManager :=
      if s1.currentTask = some h then { s1 with currentTask := none } else s1
    (true, { s2 with tasks := s2.tasks.filter (fun t => ¬ t.handle == h) })

/-- `suspendTask(handle)`: legal from every state but SUSPENDED; the running
slot is left untouched even when the task was the current one. -/
def suspendTask (s : TaskManager) (h : Nat) : Bool × TaskManager :=
  match s.lookupTask h with
  | none => (false, s)
  | some t =>
    if t.state = .suspended then (false, s)
    else
      let s1 : TaskManager :=
        { s with readyList := s.readyList.erase h, blockedList := s.blockedList.erase h }
      let s2 := s1.updateTask h (fun t => { t with state := .suspended })
      (true, { s2 with suspendedList := s2.suspendedList ++ [h] })

/-- `resumeTask(handle)`: legal only from SUSPENDED; back to READY. -/
def resumeTask (s : TaskManager) (h : Nat) : Bool × TaskManager :=
  match s.lookupTask h with
  | none => (false, s)
  | some t =>
    if t.state ≠ .suspended then (false, s)
    else
      let s1 : TaskManager := { s with suspendedList := s.suspendedList.erase h }
      let s2 := s1.updateTask h (fun t => { t with state := .ready })
      (true, s2.addToReadyList h)

/-- `blockTask(handle, reason)`: legal only from READY/RUNNING. -/
def blockTask (s : TaskManager) (h : Nat) (reason : String) : Bool × TaskManager :=
  match s.lookupTask h with
  | none => (false, s)
  | some t =>
    if t.state ≠ .ready ∧ t.state ≠ .running then (false, s)
    else
      let s1 : TaskManager := { s with readyList := s.readyList.erase h }
      let s2 := s1.updateTask h (fun t => { t with state := .blocked, blockedOn := some reason })
      (true, { s2 with blockedList := s2.blockedList ++ [h] })

/-- `unblockTask(handle)`: legal only from BLOCKED; clears `blockedOn`,
sets READY, re-inserts into the ready list.  (`delayTicks` is not touched.) -/
def unblockTask (s : TaskManager) (h : Nat) : Bool × TaskManager :=
  match s.lookupTask h with
  | none => (false, s)
  | some t =>
    if t.state ≠ .blocked then (false, s)
    else
      let s1 : TaskManager := { s with blockedList := s.blockedList.erase h }
      let s2 := s1.updateTask h (fun t => { t with state := .ready, blockedOn := none })
      (true, s2.addToReadyList h)

/-- `setTaskPriority(handle, priority)`: store the new priority; re-insert
into the ready list only when the state is READY. -/
def setTaskPriority (s : TaskManager) (h : Nat) (p : Int) : Bool × TaskManager :=
  match s.lookupTask h with
  | none => (false, s)
  | some t =>
    let s1 := s.updateTask h (fun t => { t with priority := p })
    if t.state = .ready then
      let s2 : TaskManager := { s1 with readyList := s1.readyList.erase h }
      (true, s2.addToReadyList h)
    else (true, s1)

/-- `getCurrentTask()`. -/
def getCurrentTask (s : TaskManager) : Option Nat := s.currentTask

/-- `getNextTask()`: the head of the ready list, or null. -/
def getNextTask (s : TaskManager) : Option Nat := s.readyList.head?

/-- `setCurrentTask(handle)`: store the handle; when the task exists and is
not BLOCKED, mark it RUNNING and bump `runCount`.  It is never removed from
the ready list here. -/
def setCurrentTask (s : TaskManager) (h? : Option Nat) : TaskManager :=
  let s1 : TaskManager := { s with currentTask := h? }
  match h? with
  | none => s1
  | some h =>
    match s1.lookupTask h with
    | none => s1
    | some t =>
      if t.state ≠ .blocked then
        s1.updateTask h (fun t => { t with state := .running, runCount := t.runCount + 1 })
      else s1

/-- `yieldCurrentTask()`: a RUNNING current task goes back to READY (added
to the ready list only if absent) and the running slot is cleared. -/
def yieldCurrentTask (s : TaskManager) : TaskManager :=
  match s.currentTask with
  | none => s
  | some h =>
    match s.lookupTask h with
    | none => s
    | some t =>
      if t.state = .running then
        let s1 := s.updateTask h (fun t => { t with state := .ready })
        let s2 := if h ∈ s1.readyList then s1 else s1.addToReadyList h
        { s2 with currentTask := none }
      else s

end TaskManager

/-- The delay marker `{delayTicks: n}` returned by `Scheduler.delay`. -/
structure DelayMarker where
  delayTicks : Int
deriving DecidableEq, Repr

/-- `Scheduler` state from `src/lib/scheduler.ts` (the tick interval object
itself is timing machinery; `tick()` is modelled as an explicit step). -/
structure Scheduler where
  tm : TaskManager
  tickRate : Int
  isRunning : Bool
  tickCount : Nat
  idleTaskHandle : Option Nat
  currentTaskIndex : Nat
deriving DecidableEq, Repr

namespace Scheduler

/-- The constructor together with `setupIdleTask()`: a fresh `TaskManager`
plus the idle task (priority 0, body `() => this.yield()`). -/
def construct (tickRate : Int) : Scheduler :=
  let r := TaskManager.init.createTask "IdleTask" .idleFn 0
  { tm := r.2, tickRate := tickRate, isRunning := false, tickCount := 0,
    idleTaskHandle := some r.1, currentTaskIndex := 0 }

/-- `start()`: no-op when already running, otherwise mark running and reset
the tick counter before the interval begins ticking. -/
def start (s : Scheduler) : Scheduler :=
  if s.isRunning then s
  else { s with isRunning := true, tickCount := 0 }

/-- `stop()`: no-op when stopped, otherwise clear the running flag. -/
def stop (s : Scheduler) : Scheduler :=
  if s.isRunning then { s with isRunning := false } else s

/-- `yield()`: return the current task (if any) to the ready list. -/
def yield (s : Scheduler) : Scheduler :=
  match s.tm.getCurrentTask with
  | none => s
  | some _ => { s with tm := s.tm.yieldCurrentTask }

/-- `runTask(handle)`: advance a generator task one `next()` and interpret
the outcome (completion deletes, an exception deletes, a truthy
`delayTicks` field blocks with that many ticks); a non-generator task's
function runs synchronously (the idle body calls `yield()`). -/
def runTask (s : Scheduler) (h : Nat) : Scheduler :=
  match s.tm.lookupTask h with
  | none => s
  | some t =>
    match t.body with
    | .gen [] => { s with tm := (s.tm.deleteTask h).2 }
    | .gen (.raise :: _) => { s with tm := (s.tm.deleteTask h).2 }
    | .gen (.yielded v :: rest) =>
      let s1 : Scheduler := { s with tm := s.tm.updateTask h (fun t => { t with body := .gen rest }) }
      match v with
      | .marker d =>
        if d ≠ 0 then
          let s2 : Scheduler :=
            { s1 with tm := s1.tm.updateTask h (fun t => { t with delayTicks := d }) }
          { s2 with tm := (s2.tm.blockTask h "delay").2 }
        else s1
      | .nonMarker => s1
    | .idleFn => s.yield
    | .noopFn => s

/-- The selection expression of `schedule()`:
`readyTasks[this.currentTaskIndex % readyTasks.length]`. -/
def scheduleChoice (s : Scheduler) : Option Nat :=
  s.tm.readyList.get? (s.currentTaskIndex % s.tm.readyList.length)

/-- `schedule()`: with no ready task run the idle task; otherwise pick by
the rotating index, advance the index, context-switch if the pick differs
from the current task, and run the pick. -/
def schedule (s : Scheduler) : Scheduler :=
  if s.tm.readyList.isEmpty then
    match s.idleTaskHandle with
    | none => s
    | some idle =>
      let s1 : Scheduler := { s with tm := s.tm.setCurrentTask (some idle) }
      s1.runTask idle
  else
    match s.scheduleChoice with
    | none => s
    | some nextTask =>
      let s1 : Scheduler :=
        { s with currentTaskIndex := (s.currentTaskIndex + 1) % s.tm.readyList.length }
      let cur := s1.tm.getCurrentTask
      let s2 : Scheduler :=
        if cur ≠ some nextTask then
          let s1' : Scheduler :=
            if cur ≠ none then { s1 with tm := s1.tm.yieldCurrentTask } else s1
          { s1' with tm := s1'.tm.setCurrentTask (some nextTask) }
        else s1
      s2.runTask nextTask

/-- One iteration of the `processDelayedTasks` loop body for handle `h`. -/
def processDelayedOne (tm : TaskManager) (h : Nat) : TaskManager :=
  match tm.lookupTask h with
  | none => tm
  | some t =>
    if t.state = .blocked ∧ t.delayTicks > 0 then
      let tm1 := tm.updateTask h (fun t => { t with delayTicks := t.delayTicks - 1 })
      if t.delayTicks - 1 = 0 then (tm1.unblockTask h).2 else tm1
    else tm

/-- `processDelayedTasks()`: fold the loop body over the snapshot of all
task handles. -/
def processDelayedTasks (s : Scheduler) : Scheduler :=
  { s with tm := (s.tm.tasks.map TCB.handle).foldl processDelayedOne s.tm }

/-- `tick()`: bump the counter, age the delays, schedule. -/
def tick (s : Scheduler) : Scheduler :=
  (processDelayedTasks { s with tickCount := s.tickCount + 1 }).schedule

/-- `createTask` wrapper (stack sizing is non-semantic and omitted). -/
def createTask (s : Scheduler) (name : String) (body : TaskBody) (priority : Int) :
    Nat × Scheduler :=
  let r := s.tm.createTask name body priority
  (r.1, { s with tm := r.2 })

/-- `deleteTask` wrapper. -/
def deleteTask (s : Scheduler) (h : Nat) : Bool × Scheduler :=
  let r := s.tm.deleteTask h
  (r.1, { s with tm := r.2 })

/-- `suspendTask` wrapper. -/
def suspendTask (s : Scheduler) (h : Nat) : Bool × Scheduler :=
  let r := s.tm.suspendTask h
  (r.1, { s with tm := r.2 })

/-- `resumeTask` wrapper. -/
def resumeTask (s : Scheduler) (h : Nat) : Bool × Scheduler :=
  let r := s.tm.resumeTask h
  (r.1, { s with tm := r.2 })

/-- `setTaskPriority` wrapper. -/
def setTaskPriority (s : Scheduler) (h : Nat) (p : Int) : Bool × Scheduler :=
  let r := s.tm.setTaskPriority h p
  (r.1, { s with tm := r.2 })

/-- `delay(ticks)`: `{delayTicks: 0}` when there is no current task (or its
TCB is gone), otherwise `{delayTicks: ticks}` unchanged. -/
def delay (s : Scheduler) (ticks : Int) : DelayMarker :=
  match s.tm.getCurrentTask with
  | none => ⟨0⟩
  | some h =>
    match s.tm.lookupTask h with
    | none => ⟨0⟩
    | some _ => ⟨ticks⟩

/-- Exact integer ceiling division (`Math.ceil(a / b)` for `b > 0`). -/
def ceilOf (a b : Int) : Int := -(Int.ediv (-a) b)

/-- `delayMs(ms)`: convert to ticks with `Math.ceil(ms * tickRate / 1000)`
and delegate to `delay`. -/
def delayMs (s : Scheduler) (ms : Int) : DelayMarker :=
  s.delay (ceilOf (ms * s.tickRate) 1000)

/-- `getTickCount()`. -/
def getTickCount (s : Scheduler) : Nat := s.tickCount

/-- The record returned by `getSystemStatus()`. -/
structure SystemStatus where
  isRunning : Bool
  tickCount : Nat
  currentTask : Option Nat
  readyTasks : Nat
  blockedTasks : Nat
  suspendedTasks : Nat
  totalTasks : Nat
deriving DecidableEq, Repr

/-- `getSystemStatus()`. -/
def getSystemStatus (s : Scheduler) : SystemStatus :=
  { isRunning := s.isRunning, tickCount := s.tickCount,
    currentTask := s.tm.getCurrentTask,
    readyTasks := s.tm.readyList.length,
    blockedTasks := s.tm.blockedList.length,
    suspendedTasks := s.tm.suspendedList.length,
    totalTasks := s.tm.tasks.length }

end Scheduler

/-!
Model of `RTOSParser` (the acorn-based transformer).  A task body is a list
of top-level expression statements; each is either a plain statement or a
`delay(d)` call whose receiver is (`recvParam = true`) or is not the body's
own parameter.  The produced restartable unit is described by the sequence
of its `step()` outcomes: each non-final step runs some statements and
yields a value; the final step runs the remaining statements and reports
`done = true`.
-/

/-- One top-level expression statement of a task body. -/
inductive SrcStmt
  | plain
  | delayStmt (d : Int) (recvParam : Bool)
deriving DecidableEq, Repr

/-- The statements executed by one non-final `step()` call, together with
the value it yields. -/
structure StepSlice where
  stmts : List SrcStmt
  value : YieldVal
deriving DecidableEq, Repr

/-- The behaviour of a transformed restartable unit: the non-final step
slices in order, then the statements the completing step still runs. -/
structure TransUnit where
  slices : List StepSlice
  finalStmts : List SrcStmt
deriving DecidableEq, Repr

/-- Result of `transformTaskFunction`: either a generator-producing wrapper
(described by its unit behaviour) or the original plain function returned
unchanged (the invalid-receiver fallback). -/
inductive TransResult
  | unit (u : TransUnit)
  | unchanged
deriving DecidableEq, Repr

namespace RTOSParser

/-- `hasDelayCallInAST`: does any statement contain a `delay(...)` call? -/
def hasDelayCallInAST (body : List SrcStmt) : Bool :=
  body.any fun st =>
    match st with
    | .delayStmt _ _ => true
    | .plain => false

/-- `hasValidDelayCalls`: every member-expression `delay` call is
receiver-qualified by a parameter of the body. -/
def hasValidDelayCalls (body : List SrcStmt) : Bool :=
  body.all fun st =>
    match st with
    | .delayStmt _ recvParam => recvParam
    | .plain => true

/-- Delay-only rewrite (`parseAndTransformToGenerator` with
`yieldAllStatements = false`): only `delay` calls become yields, so a step
runs everything up to and including the next delay statement and yields its
marker; the statements after the last delay run in the completing step. -/
def transformDelayOnly (acc : List SrcStmt) : List SrcStmt → TransUnit
  | [] => ⟨[], acc.reverse⟩
  | .plain :: rest => transformDelayOnly (.plain :: acc) rest
  | .delayStmt d r :: rest =>
    let u := transformDelayOnly [] rest
    ⟨⟨(SrcStmt.delayStmt d r :: acc).reverse, .marker d⟩ :: u.slices, u.finalStmts⟩

/-- Statement-level rewrite (`yieldAllStatements = true`): every top-level
expression statement becomes its own yield; a delay statement yields its
marker, any other statement yields its (non-marker) value. -/
def transformAllStmts (body : List SrcStmt) : TransUnit :=
  ⟨body.map fun st =>
    match st with
    | .plain => ⟨[SrcStmt.plain], .nonMarker⟩
    | .delayStmt d r => ⟨[SrcStmt.delayStmt d r], .marker d⟩, []⟩

/-- `transformTaskFunction`: a body with no `delay` call is wrapped in the
trivial generator that runs the whole body in its first `step()` (this
branch is taken before the mode is consulted); a body whose `delay` calls
are not parameter-qualified is returned unchanged; otherwise the
mode-dependent rewrite applies. -/
def transformTaskFunction (yieldAllStatements : Bool) (body : List SrcStmt) : TransResult :=
  if ¬ hasDelayCallInAST body then .unit ⟨[], body⟩
  else if ¬ hasValidDelayCalls body then .unchanged
  else if yieldAllStatements then .unit (transformAllStmts body)
  else .unit (transformDelayOnly [] body)

/-- The outcome of the `n`-th (1-indexed) `step()` call on a unit. -/
inductive StepOut
  | notDone (v : YieldVal)
  | done
deriving DecidableEq, Repr

/-- `step()` number `n` (1-indexed): the `n`-th slice's yield while slices
remain, `done = true` afterwards. -/
def stepResult (u : TransUnit) (n : Nat) : StepOut :=
  match u.slices.get? (n - 1) with
  | some sl => .notDone sl.value
  | none => .done

/-- The index of the first `step()` call that reports `done = true`. -/
def doneCall (u : TransUnit) : Nat := u.slices.length + 1

end RTOSParser

/-!  Invariant and operation-indexing definitions used by the theorems. -/

/-- Membership well-formedness of a `TaskManager`: list membership matches
task state (the RUNNING task is kept in the ready list, as `setCurrentTask`
leaves it there), every listed handle is a live task, the lists and the
task keys hold no duplicates, and all handles are below the allocation
counter. -/
def TaskManager.WF (s : TaskManager) : Prop :=
  (∀ t ∈ s.tasks,
    (t.handle ∈ s.readyList ↔ (t.state = .ready ∨ t.state = .running)) ∧
    (t.handle ∈ s.blockedList ↔ t.state = .blocked) ∧
    (t.handle ∈ s.suspendedList ↔ t.state = .suspended)) ∧
  (∀ h ∈ s.readyList, (s.lookupTask h).isSome) ∧
  (∀ h ∈ s.blockedList, (s.lookupTask h).isSome) ∧
  (∀ h ∈ s.suspendedList, (s.lookupTask h).isSome) ∧
  s.readyList.Nodup ∧ s.blockedList.Nodup ∧ s.suspendedList.Nodup ∧
  (s.tasks.map TCB.handle).Nodup ∧
  (∀ t ∈ s.tasks, t.handle < s.nextHandle)

instance (s : TaskManager) : Decidable s.WF := by
  unfold TaskManager.WF
  infer_instance

/-- The public operations quantified over by claim C2 (TaskManager surface
plus the scheduler tick). -/
inductive KernelOp
  | create (name : String) (body : TaskBody) (priority : Int)
  | delete (h : Nat)
  | suspend (h : Nat)
  | resume (h : Nat)
  | block (h : Nat) (reason : String)
  | unblock (h : Nat)
  | setPriority (h : Nat) (p : Int)
  | setCurrent (h? : Option Nat)
  | yieldCur
  | tickOp

/-- Apply one public operation to the scheduler state. -/
def applyOp (s : Scheduler) : KernelOp → Scheduler
  | .create n b p => (s.createTask n b p).2
  | .delete h => (s.deleteTask h).2
  | .suspend h => (s.suspendTask h).2
  | .resume h => (s.resumeTask h).2
  | .block h r => { s with tm := (s.tm.blockTask h r).2 }
  | .unblock h => { s with tm := (s.tm.unblockTask h).2 }
  | .setPriority h p => (s.setTaskPriority h p).2
  | .setCurrent h? => { s with tm := s.tm.setCurrentTask h? }
  | .yieldCur => { s with tm := s.tm.yieldCurrentTask }
  | .tickOp => s.tick

/-- Guard under which the membership invariant is preserved:
`setCurrentTask` must not target a SUSPENDED task, and a tick must not
occur while the idle task is SUSPENDED (the idle fallback of `schedule`
would mark a SUSPENDED task RUNNING without moving it between lists). -/
def opGuard (s : Scheduler) : KernelOp → Prop
  | .setCurrent (some h) => ∀ t, s.tm.lookupTask h = some t → t.state ≠ .suspended
  | .tickOp => ∀ idle t, s.idleTaskHandle = some idle →
      s.tm.lookupTask idle = some t → t.state ≠ .suspended
  | _ => True

/-!  Concrete execution traces used by counterexamples and witnesses. -/

/-- A generator step that yields a plain (non-marker) value. -/
def yStep : StepRes := .yielded .nonMarker

/-- Idle task plus `A` (priority 5, handle 2) and `B` (priority 3,
handle 3), both generators that keep yielding plain values; started and
ticked twice.  The rotating index now points at the idle task. -/
def twoTaskTrace : Scheduler :=
  ((((Scheduler.construct 10).createTask "A" (.gen [yStep, yStep, yStep]) 5).2.createTask
    "B" (.gen [yStep, yStep, yStep]) 3).2.start).tick.tick

/-- The same two-task setup before any tick: ready list `[2, 3, 1]`,
rotating index 0, no current task. -/
def preTickTrace : Scheduler :=
  (((Scheduler.construct 10).createTask "A" (.gen [yStep, yStep, yStep]) 5).2.createTask
    "B" (.gen [yStep, yStep, yStep]) 3).2

/-- Idle task plus generator task `A` (priority 5, handle 2) that yields a
plain value twice; started and ticked once, so `A` is RUNNING and current. -/
def runningTrace : Scheduler :=
  (((Scheduler.construct 10).createTask "A" (.gen [yStep, yStep]) 5).2.start).tick

/-- Idle task plus generator task `A` (priority 5, handle 2) whose first
step yields `{delayTicks: 5}`; after one tick `A` is BLOCKED on delay. -/
def delayTrace : Scheduler :=
  (((Scheduler.construct 10).createTask "A" (.gen [.yielded (.marker 5), yStep]) 5).2.start).tick

/-- The TCB of task 2 in `delayTrace`. -/
def delayTCB : TCB :=
  { handle := 2, name := "A", priority := 5, state := .blocked, delayTicks := 5,
    blockedOn := some "delay", runCount := 1, body := .gen [yStep] }

/-- Idle task plus generator task `A` (handle 2) whose first step yields
`{delayTicks: -3}`; after one tick `A` is BLOCKED with negative delay. -/
def negDelayTrace : Scheduler :=
  (((Scheduler.construct 10).createTask "A" (.gen [.yielded (.marker (-3))]) 5).2.start).tick

/-- Idle task plus generator task `A` (handle 2) whose first step raises. -/
def raiseTrace : Scheduler :=
  ((Scheduler.construct 10).createTask "A" (.gen [.raise]) 5).2

/-!  Basic lemmas about the state operations. -/

namespace TaskManager

theorem find?_handle_map_ite (l : List TCB) (h h' : Nat) (f : TCB → TCB)
    (hf : ∀ t, (f t).handle = t.handle) :
    (l.map fun t => if t.handle == h then f t else t).find? (fun t => t.handle == h') =
      if h = h' then (l.find? (fun t => t.handle == h')).map f
      else l.find? (fun t => t.handle == h') := by
  rw [List.find?_map]
  have hpred : ((fun t : TCB => t.handle == h') ∘ fun t => if t.handle == h then f t else t)
      = fun t : TCB => t.handle == h' := by
    funext t
    by_cases hth : t.handle = h
    · simp [hth, hf]
    · simp [hth]
  rw [hpred]
  cases hfind : l.find? (fun t => t.handle == h') with
  | none => by_cases he : h = h' <;> simp [he]
  | some t =>
    have hth' : t.handle = h' := by simpa using List.find?_some hfind
    by_cases he : h = h'
    · subst he
      simp [hth']
    · have hne : ¬ t.handle = h := by rw [hth']; exact fun hx => he hx.symm
      simp [hne, he]

theorem lookupTask_updateTask (s : TaskManager) (h h' : Nat) (f : TCB → TCB)
    (hf : ∀ t, (f t).handle = t.handle) :
    (s.updateTask h f).lookupTask h' =
      if h = h' then (s.lookupTask h').map f else s.lookupTask h' := by
  simp only [lookupTask, updateTask]
  exact find?_handle_map_ite s.tasks h h' f hf

theorem updateTask_currentTask (s : TaskManager) (h : Nat) (f : TCB → TCB) :
    (s.updateTask h f).currentTask = s.currentTask := rfl

theorem updateTask_readyList (s : TaskManager) (h : Nat) (f : TCB → TCB) :
    (s.updateTask h f).readyList = s.readyList := rfl

theorem addToReadyList_tasks (s : TaskManager) (h : Nat) :
    (s.addToReadyList h).tasks = s.tasks := by
  unfold addToReadyList
  cases s.lookupTask h <;> rfl

theorem addToReadyList_currentTask (s : TaskManager) (h : Nat) :
    (s.addToReadyList h).currentTask = s.currentTask := by
  unfold addToReadyList
  cases s.lookupTask h <;> rfl

theorem addToReadyList_blockedList (s : TaskManager) (h : Nat) :
    (s.addToReadyList h).blockedList = s.blockedList := by
  unfold addToReadyList
  cases s.lookupTask h <;> rfl

theorem addToReadyList_suspendedList (s : TaskManager) (h : Nat) :
    (s.addToReadyList h).suspendedList = s.suspendedList := by
  unfold addToReadyList
  cases s.lookupTask h <;> rfl

theorem addToReadyList_nextHandle (s : TaskManager) (h : Nat) :
    (s.addToReadyList h).nextHandle = s.nextHandle := by
  unfold addToReadyList
  cases s.lookupTask h <;> rfl

theorem lookupTask_addToReadyList (s : TaskManager) (h h' : Nat) :
    (s.addToReadyList h).lookupTask h' = s.lookupTask h' := by
  unfold lookupTask
  rw [addToReadyList_tasks]

theorem lookupTask_eq_of_tasks_eq (s s' : TaskManager) (h : Nat)
    (he : s'.tasks = s.tasks) : s'.lookupTask h = s.lookupTask h := by
  unfold lookupTask
  rw [he]

theorem yieldCurrentTask_tasks (s : TaskManager) :
    s.yieldCurrentTask.tasks = s.tasks ∨
      ∃ c, s.currentTask = some c ∧
        s.yieldCurrentTask.tasks = (s.updateTask c fun u => { u with state := .ready }).tasks := by
  unfold yieldCurrentTask
  split
  · exact Or.inl rfl
  · rename_i c hc
    split
    · exact Or.inl rfl
    · rename_i t hl
      split
      · rename_i ht
        refine Or.inr ⟨c, hc, ?_⟩
        dsimp only
        split
        · rfl
        · exact addToReadyList_tasks _ _
      · exact Or.inl rfl

theorem lookupTask_yieldCurrentTask_ne (s : TaskManager) (h : Nat)
    (hne : s.currentTask ≠ some h) :
    s.yieldCurrentTask.lookupTask h = s.lookupTask h := by
  rcases yieldCurrentTask_tasks s with he | ⟨c, hc, he⟩
  · exact lookupTask_eq_of_tasks_eq _ _ _ he
  · have hch : ¬ c = h := fun heq => hne (heq ▸ hc)
    calc s.yieldCurrentTask.lookupTask h
        = ((s.updateTask c fun u => { u with state := .ready })).lookupTask h :=
          lookupTask_eq_of_tasks_eq _ _ _ he
      _ = s.lookupTask h := by
          rw [lookupTask_updateTask s c h (fun u => { u with state := .ready }) (fun t => rfl)]
          simp [hch]

theorem suspendTask_parts (s : TaskManager) (h : Nat) (t : TCB)
    (hl : s.lookupTask h = some t) (hns : t.state ≠ .suspended) :
    (s.suspendTask h).1 = true ∧
    (s.suspendTask h).2.currentTask = s.currentTask ∧
    (s.suspendTask h).2.lookupTask h = some { t with state := .suspended } := by
  unfold suspendTask
  rw [hl]
  dsimp only
  rw [if_neg hns]
  refine ⟨rfl, rfl, ?_⟩
  have h2 : ∀ X : TaskManager, X.tasks = (({ s with
        readyList := s.readyList.erase h,
        blockedList := s.blockedList.erase h } : TaskManager).updateTask h
        (fun u => { u with state := .suspended })).tasks →
      X.lookupTask h = some { t with state := .suspended } := by
    intro X hX
    rw [lookupTask_eq_of_tasks_eq _ _ h hX]
    rw [lookupTask_updateTask _ h h (fun u => { u with state := .suspended }) (fun u => rfl)]
    rw [if_pos rfl]
    rw [show ({ s with
        readyList := s.readyList.erase h,
        blockedList := s.blockedList.erase h } : TaskManager).lookupTask h = some t from hl]
    rfl
  exact h2 _ rfl

theorem deleteTask_currentTask_self (s : TaskManager) (h : Nat) (t : TCB)
    (hl : s.lookupTask h = some t) (hcur : s.currentTask = some h) :
    (s.deleteTask h).2.currentTask = none := by
  unfold deleteTask
  rw [hl]
  dsimp only
  rw [if_pos]
  exact hcur

theorem find?_filter_ne_self (l : List TCB) (h : Nat) :
    (l.filter fun t => ¬ t.handle == h).find? (fun t => t.handle == h) = none := by
  rw [List.find?_eq_none]
  intro a ha
  have := (List.mem_filter.mp ha).2
  simpa using this

theorem find?_filter_ne_other (l : List TCB) (h h' : Nat) (hne : h' ≠ h) :
    (l.filter fun t => ¬ t.handle == h).find? (fun t => t.handle == h') =
      l.find? (fun t => t.handle == h') := by
  rw [List.find?_filter]
  congr 1
  funext a
  by_cases hx : a.handle = h'
  · have hxh : ¬ a.handle = h := by rw [hx]; exact hne
    simp [hx, hxh, hne]
  · simp [hx]

theorem deleteTask_parts (s : TaskManager) (h : Nat) (t : TCB)
    (hl : s.lookupTask h = some t) :
    (s.deleteTask h).1 = true ∧
    (s.deleteTask h).2.lookupTask h = none ∧
    (∀ h', h' ≠ h → (s.deleteTask h).2.lookupTask h' = s.lookupTask h') ∧
    (s.deleteTask h).2.readyList = s.readyList.erase h ∧
    (s.deleteTask h).2.blockedList = s.blockedList.erase h ∧
    (s.deleteTask h).2.suspendedList = s.suspendedList.erase h := by
  unfold deleteTask
  rw [hl]
  dsimp only
  constructor
  · rfl
  constructor
  · show List.find? _ (List.filter _ _) = none
    split
    · exact find?_filter_ne_self s.tasks h
    · exact find?_filter_ne_self s.tasks h
  constructor
  · intro h' hne
    show List.find? _ (List.filter _ _) = _
    split
    · exact find?_filter_ne_other s.tasks h h' hne
    · exact find?_filter_ne_other s.tasks h h' hne
  constructor
  · show (if _ then _ else _ : TaskManager).readyList = _
    split <;> rfl
  constructor
  · show (if _ then _ else _ : TaskManager).blockedList = _
    split <;> rfl
  · show (if _ then _ else _ : TaskManager).suspendedList = _
    split <;> rfl

theorem setCurrentTask_some_spec (tm : TaskManager) (h : Nat) (t : TCB)
    (hl : tm.lookupTask h = some t) (hbl : t.state ≠ .blocked) :
    tm.setCurrentTask (some h) =
      ({ tm with currentTask := some h } : TaskManager).updateTask h
        (fun u => { u with state := .running, runCount := u.runCount + 1 }) := by
  unfold setCurrentTask
  dsimp only
  rw [show ({ tm with currentTask := some h } : TaskManager).lookupTask h = some t from hl]
  dsimp only
  rw [if_pos hbl]

theorem lookupTask_setCurrentTask_self (tm : TaskManager) (h : Nat) (t : TCB)
    (hl : tm.lookupTask h = some t) (hbl : t.state ≠ .blocked) :
    (tm.setCurrentTask (some h)).lookupTask h =
      some { t with state := .running, runCount := t.runCount + 1 } := by
  rw [setCurrentTask_some_spec tm h t hl hbl]
  rw [lookupTask_updateTask _ h h
    (fun u => { u with state := .running, runCount := u.runCount + 1 }) (fun u => rfl)]
  rw [if_pos rfl]
  rw [show ({ tm with currentTask := some h } : TaskManager).lookupTask h = some t from hl]
  rfl

theorem setCurrentTask_currentTask (tm : TaskManager) (h? : Option Nat) :
    (tm.setCurrentTask h?).currentTask = h? := by
  unfold setCurrentTask
  cases h? with
  | none => rfl
  | some h =>
    dsimp only
    split
    · rfl
    · split
      · rfl
      · rfl

theorem nodup_append_single (l : List Nat) (a : Nat) (hl : l.Nodup) (ha : a ∉ l) :
    (l ++ [a]).Nodup := by
  rw [List.nodup_append]
  refine ⟨hl, List.nodup_singleton a, ?_⟩
  intro x hx hx1
  rw [List.mem_singleton] at hx1
  exact ha (hx1 ▸ hx)

theorem lookup_mem (s : TaskManager) (h : Nat) (t : TCB)
    (hl : s.lookupTask h = some t) : t ∈ s.tasks :=
  List.mem_of_find?_eq_some hl

theorem lookup_handle (s : TaskManager) (h : Nat) (t : TCB)
    (hl : s.lookupTask h = some t) : t.handle = h := by
  have := List.find?_some hl
  simpa using this

theorem find?_handle_of_mem (l : List TCB) (t : TCB)
    (hnd : (l.map TCB.handle).Nodup) (ht : t ∈ l) :
    l.find? (fun u => u.handle == t.handle) = some t := by
  induction l with
  | nil => cases ht
  | cons a l ih =>
    rw [List.map_cons, List.nodup_cons] at hnd
    rw [List.find?_cons]
    rcases List.mem_cons.mp ht with rfl | ht
    · simp
    · have hna : ¬ a.handle = t.handle := by
        intro he
        exact hnd.1 (he ▸ List.mem_map_of_mem TCB.handle ht)
      have hbeq : (a.handle == t.handle) = false := by
        simpa using hna
      rw [hbeq]
      exact ih hnd.2 ht

theorem lookup_of_mem (s : TaskManager) (t : TCB)
    (hnd : (s.tasks.map TCB.handle).Nodup) (ht : t ∈ s.tasks) :
    s.lookupTask t.handle = some t :=
  find?_handle_of_mem s.tasks t hnd ht

theorem lookup_unique (s : TaskManager) (h : Nat) (t u : TCB)
    (hnd : (s.tasks.map TCB.handle).Nodup)
    (hl : s.lookupTask h = some t) (hu : u ∈ s.tasks) (huh : u.handle = h) : u = t := by
  have := lookup_of_mem s u hnd hu
  rw [huh, hl] at this
  exact (Option.some.inj this).symm

theorem lookup_none_of_fresh (s : TaskManager) (h : Nat)
    (hall : ∀ t ∈ s.tasks, t.handle ≠ h) : s.lookupTask h = none := by
  rw [TaskManager.lookupTask, List.find?_eq_none]
  intro a ha
  simpa using hall a ha

theorem find?_append_some (l₁ l₂ : List TCB) (p : TCB → Bool) (t : TCB)
    (hy : l₁.find? p = some t) : (l₁ ++ l₂).find? p = some t := by
  induction l₁ with
  | nil => cases hy
  | cons a l ih =>
    rw [List.cons_append, List.find?_cons]
    rw [List.find?_cons] at hy
    cases hp : p a with
    | true => rw [hp] at hy; exact hy
    | false => rw [hp] at hy; exact ih hy

theorem find?_append_none (l₁ l₂ : List TCB) (p : TCB → Bool)
    (hy : l₁.find? p = none) : (l₁ ++ l₂).find? p = l₂.find? p := by
  induction l₁ with
  | nil => rfl
  | cons a l ih =>
    rw [List.find?_cons] at hy
    rw [List.cons_append, List.find?_cons]
    cases hp : p a with
    | true => rw [hp] at hy; cases hy
    | false => rw [hp] at hy; exact ih hy

theorem mem_insertByPriority (s : TaskManager) (p : Int) (h a : Nat) (l : List Nat) :
    a ∈ s.insertByPriority p h l ↔ a = h ∨ a ∈ l := by
  induction l with
  | nil => simp [insertByPriority]
  | cons x xs ih =>
    rw [insertByPriority]
    cases s.lookupTask x with
    | none =>
      simp only [List.mem_cons, ih]
      tauto
    | some tx =>
      by_cases hp : p > tx.priority
      · simp [hp, List.mem_cons]
      · simp only [hp, if_false, List.mem_cons, ih]
        tauto

theorem nodup_insertByPriority (s : TaskManager) (p : Int) (h : Nat) (l : List Nat)
    (hl : l.Nodup) (hn : h ∉ l) : (s.insertByPriority p h l).Nodup := by
  induction l with
  | nil => simp [insertByPriority]
  | cons x xs ih =>
    rw [List.nodup_cons] at hl
    have hx : h ≠ x := fun he => hn (he ▸ List.mem_cons_self x xs)
    have hxs : h ∉ xs := fun he => hn (List.mem_cons_of_mem x he)
    rw [insertByPriority]
    cases s.lookupTask x with
    | none =>
      rw [List.nodup_cons]
      refine ⟨?_, ih hl.2 hxs⟩
      rw [mem_insertByPriority]
      rintro (he | he)
      · exact hx he.symm
      · exact hl.1 he
    | some tx =>
      by_cases hp : p > tx.priority
      · simp only [hp, if_true, reduceIte]
        rw [List.nodup_cons, List.nodup_cons]
        refine ⟨?_, hl.1, hl.2⟩
        rw [List.mem_cons]
        rintro (he | he)
        · exact hx he
        · exact hn (List.mem_cons_of_mem x he)
      · simp only [hp, if_false, reduceIte]
        rw [List.nodup_cons]
        refine ⟨?_, ih hl.2 hxs⟩
        rw [mem_insertByPriority]
        rintro (he | he)
        · exact hx he.symm
        · exact hl.1 he

theorem addToReadyList_spec (s : TaskManager) (h : Nat) (t : TCB)
    (hl : s.lookupTask h = some t) :
    s.addToReadyList h = { s with readyList := s.insertByPriority t.priority h s.readyList } := by
  unfold addToReadyList
  rw [hl]

/-- Master preservation lemma: an operation that rewrites the TCB stored
under `h` through `f` (keeping its handle), leaves every other handle's
list memberships unchanged, and places `h` in lists matching `(f t).state`,
preserves well-formedness. -/
theorem WF_retag (s : TaskManager) (h : Nat) (t : TCB) (f : TCB → TCB)
    (hl : s.lookupTask h = some t)
    (hf : ∀ u, (f u).handle = u.handle)
    (s' : TaskManager)
    (htasks : s'.tasks = (s.updateTask h f).tasks)
    (hnext : s'.nextHandle = s.nextHandle)
    (hready : ∀ h', h' ≠ h → (h' ∈ s'.readyList ↔ h' ∈ s.readyList))
    (hblocked : ∀ h', h' ≠ h → (h' ∈ s'.blockedList ↔ h' ∈ s.blockedList))
    (hsusp : ∀ h', h' ≠ h → (h' ∈ s'.suspendedList ↔ h' ∈ s.suspendedList))
    (hselfr : h ∈ s'.readyList ↔ ((f t).state = .ready ∨ (f t).state = .running))
    (hselfb : h ∈ s'.blockedList ↔ (f t).state = .blocked)
    (hselfs : h ∈ s'.suspendedList ↔ (f t).state = .suspended)
    (hnr : s'.readyList.Nodup) (hnb : s'.blockedList.Nodup) (hns : s'.suspendedList.Nodup)
    (hwf : s.WF) : s'.WF := by
  obtain ⟨hA, hR, hB, hS, _, _, _, hnd, hbound⟩ := hwf
  have hth : t.handle = h := lookup_handle s h t hl
  have hlook : ∀ h', s'.lookupTask h' =
      if h = h' then (s.lookupTask h').map f else s.lookupTask h' := by
    intro h'
    rw [lookupTask_eq_of_tasks_eq (s.updateTask h f) s' h' htasks,
      lookupTask_updateTask s h h' f hf]
  refine ⟨?_, ?_, ?_, ?_, hnr, hnb, hns, ?_, ?_⟩
  · intro t' ht'
    rw [htasks] at ht'
    obtain ⟨u, hu, hut⟩ := List.mem_map.mp ht'
    by_cases huh : u.handle = h
    · have hut2 : u = t := lookup_unique s h t u hnd hl hu huh
      have ht'e : t' = f t := by
        rw [← hut, hut2]
        simp [hth]
      rw [ht'e, hf, hth]
      exact ⟨hselfr, hselfb, hselfs⟩
    · have ht'e : t' = u := by
        rw [← hut]
        simp [huh]
      rw [ht'e]
      refine ⟨?_, ?_, ?_⟩
      · rw [hready u.handle huh]
        exact (hA u hu).1
      · rw [hblocked u.handle huh]
        exact (hA u hu).2.1
      · rw [hsusp u.handle huh]
        exact (hA u hu).2.2
  · intro h' hmem
    rw [hlook h']
    by_cases he : h = h'
    · rw [if_pos he, ← he, hl]
      simp
    · rw [if_neg he]
      exact hR h' ((hready h' (fun hx => he hx.symm)).mp hmem)
  · intro h' hmem
    rw [hlook h']
    by_cases he : h = h'
    · rw [if_pos he, ← he, hl]
      simp
    · rw [if_neg he]
      exact hB h' ((hblocked h' (fun hx => he hx.symm)).mp hmem)
  · intro h' hmem
    rw [hlook h']
    by_cases he : h = h'
    · rw [if_pos he, ← he, hl]
      simp
    · rw [if_neg he]
      exact hS h' ((hsusp h' (fun hx => he hx.symm)).mp hmem)
  · rw [htasks]
    show ((s.tasks.map fun u => if u.handle == h then f u else u).map TCB.handle).Nodup
    rw [List.map_map]
    have hfun : (TCB.handle ∘ fun u : TCB => if u.handle == h then f u else u) = TCB.handle := by
      funext u
      by_cases huh : u.handle = h <;> simp [Function.comp, huh, hf]
    rw [hfun]
    exact hnd
  · intro t' ht'
    rw [htasks] at ht'
    obtain ⟨u, hu, hut⟩ := List.mem_map.mp ht'
    rw [hnext]
    have hhe : t'.handle = u.handle := by
      rw [← hut]
      by_cases huh : u.handle = h <;> simp [huh, hf]
    rw [hhe]
    exact hbound u hu

theorem WF_mem_of_lookup (s : TaskManager) (hwf : s.WF) (h : Nat) (t : TCB)
    (hl : s.lookupTask h = some t) :
    (h ∈ s.readyList ↔ (t.state = .ready ∨ t.state = .running)) ∧
    (h ∈ s.blockedList ↔ t.state = .blocked) ∧
    (h ∈ s.suspendedList ↔ t.state = .suspended) := by
  have hm := lookup_mem s h t hl
  have hth := lookup_handle s h t hl
  have := hwf.1 t hm
  rw [hth] at this
  exact this

theorem suspendTask_eq (s : TaskManager) (h : Nat) (t : TCB)
    (hl : s.lookupTask h = some t) (hst : t.state ≠ .suspended) :
    (s.suspendTask h).2 =
      { (({ s with
            readyList := s.readyList.erase h,
            blockedList := s.blockedList.erase h } : TaskManager).updateTask h
          (fun u => { u with state := .suspended })) with
        suspendedList := s.suspendedList ++ [h] } := by
  unfold suspendTask
  rw [hl]
  dsimp only
  rw [if_neg hst]
  rfl

theorem resumeTask_eq (s : TaskManager) (h : Nat) (t : TCB)
    (hl : s.lookupTask h = some t) (hst : t.state = .suspended) :
    (s.resumeTask h).2 =
      (({ s with suspendedList := s.suspendedList.erase h } : TaskManager).updateTask h
        (fun u => { u with state := .ready })).addToReadyList h := by
  unfold resumeTask
  rw [hl]
  dsimp only
  rw [if_neg (not_not_intro hst)]

theorem blockTask_eq (s : TaskManager) (h : Nat) (t : TCB) (reason : String)
    (hl : s.lookupTask h = some t) (hst : t.state = .ready ∨ t.state = .running) :
    (s.blockTask h reason).2 =
      { (({ s with readyList := s.readyList.erase h } : TaskManager).updateTask h
          (fun u => { u with state := .blocked, blockedOn := some reason })) with
        blockedList := s.blockedList ++ [h] } := by
  unfold blockTask
  rw [hl]
  dsimp only
  rw [if_neg (show ¬ (t.state ≠ .ready ∧ t.state ≠ .running) by
    rcases hst with hst | hst
    · exact fun hc => hc.1 hst
    · exact fun hc => hc.2 hst)]
  rfl

theorem unblockTask_eq (s : TaskManager) (h : Nat) (t : TCB)
    (hl : s.lookupTask h = some t) (hst : t.state = .blocked) :
    (s.unblockTask h).2 =
      (({ s with blockedList := s.blockedList.erase h } : TaskManager).updateTask h
        (fun u => { u with state := .ready, blockedOn := none })).addToReadyList h := by
  unfold unblockTask
  rw [hl]
  dsimp only
  rw [if_neg (not_not_intro hst)]

theorem setCurrentTask_eq_missing (s : TaskManager) (h : Nat)
    (hl : s.lookupTask h = none) :
    s.setCurrentTask (some h) = { s with currentTask := some h } := by
  unfold setCurrentTask
  dsimp only
  rw [show ({ s with currentTask := some h } : TaskManager).lookupTask h = none from hl]

theorem setCurrentTask_eq_blocked (s : TaskManager) (h : Nat) (t : TCB)
    (hl : s.lookupTask h = some t) (hst : t.state = .blocked) :
    s.setCurrentTask (some h) = { s with currentTask := some h } := by
  unfold setCurrentTask
  dsimp only
  rw [show ({ s with currentTask := some h } : TaskManager).lookupTask h = some t from hl]
  dsimp only
  rw [if_neg (not_not_intro hst)]

theorem deleteTask_tasks (s : TaskManager) (h : Nat) (t : TCB)
    (hl : s.lookupTask h = some t) :
    (s.deleteTask h).2.tasks = s.tasks.filter (fun u => ¬ u.handle == h) := by
  unfold deleteTask
  rw [hl]
  dsimp only
  split <;> rfl

theorem deleteTask_nextHandle (s : TaskManager) (h : Nat) (t : TCB)
    (hl : s.lookupTask h = some t) :
    (s.deleteTask h).2.nextHandle = s.nextHandle := by
  unfold deleteTask
  rw [hl]
  dsimp only
  split <;> rfl

theorem WF_suspendTask (s : TaskManager) (h : Nat) (hwf : s.WF) :
    (s.suspendTask h).2.WF := by
  cases hl : s.lookupTask h with
  | none =>
    unfold suspendTask
    rw [hl]
    exact hwf
  | some t =>
    by_cases hst : t.state = .suspended
    · unfold suspendTask
      rw [hl]
      dsimp only
      rw [if_pos hst]
      exact hwf
    · rw [suspendTask_eq s h t hl hst]
      have hmem := WF_mem_of_lookup s hwf h t hl
      have hnsusp : h ∉ s.suspendedList := fun hc => hst (hmem.2.2.mp hc)
      refine WF_retag s h t (fun u => { u with state := .suspended }) hl (fun u => rfl)
        _ rfl rfl ?_ ?_ ?_ ?_ ?_ ?_ ?_ ?_ ?_ hwf
      · intro h' hne
        exact List.mem_erase_of_ne hne
      · intro h' hne
        exact List.mem_erase_of_ne hne
      · intro h' hne
        show h' ∈ s.suspendedList ++ [h] ↔ h' ∈ s.suspendedList
        rw [List.mem_append, List.mem_singleton]
        exact ⟨fun hc => hc.elim id (fun he => absurd he hne), Or.inl⟩
      · show h ∈ s.readyList.erase h ↔ _
        rw [(hwf.2.2.2.2.1).mem_erase_iff]
        simp
      · show h ∈ s.blockedList.erase h ↔ _
        rw [(hwf.2.2.2.2.2.1).mem_erase_iff]
        simp
      · show h ∈ s.suspendedList ++ [h] ↔ _
        simp
      · exact (hwf.2.2.2.2.1).erase h
      · exact (hwf.2.2.2.2.2.1).erase h
      · exact nodup_append_single _ h hwf.2.2.2.2.2.2.1 hnsusp

theorem WF_resumeTask (s : TaskManager) (h : Nat) (hwf : s.WF) :
    (s.resumeTask h).2.WF := by
  cases hl : s.lookupTask h with
  | none =>
    unfold resumeTask
    rw [hl]
    exact hwf
  | some t =>
    by_cases hst : t.state = .suspended
    · rw [resumeTask_eq s h t hl hst]
      have hmem := WF_mem_of_lookup s hwf h t hl
      have hnready : h ∉ s.readyList := fun hc => by
        rcases hmem.1.mp hc with he | he <;> rw [hst] at he <;> cases he
      have hl2 : (({ s with suspendedList := s.suspendedList.erase h } : TaskManager).updateTask h
          (fun u => { u with state := .ready })).lookupTask h =
          some { t with state := .ready } := by
        rw [lookupTask_updateTask _ h h (fun u => { u with state := .ready }) (fun u => rfl)]
        rw [if_pos rfl]
        rw [show ({ s with suspendedList := s.suspendedList.erase h } : TaskManager).lookupTask h
          = some t from hl]
        rfl
      rw [addToReadyList_spec _ h { t with state := .ready } hl2]
      refine WF_retag s h t (fun u => { u with state := .ready }) hl (fun u => rfl)
        _ rfl rfl ?_ ?_ ?_ ?_ ?_ ?_ ?_ ?_ ?_ hwf
      · intro h' hne
        show h' ∈ _ ↔ _
        rw [mem_insertByPriority]
        exact ⟨fun hc => hc.elim (fun he => absurd he hne) id, Or.inr⟩
      · intro h' hne
        exact Iff.rfl
      · intro h' hne
        exact List.mem_erase_of_ne hne
      · show h ∈ _ ↔ _
        rw [mem_insertByPriority]
        simp
      · show h ∈ s.blockedList ↔ _
        constructor
        · intro hc
          rw [hst] at hmem
          exact absurd (hmem.2.1.mp hc) (by intro hx; cases hx)
        · intro hc
          cases hc
      · show h ∈ s.suspendedList.erase h ↔ _
        rw [(hwf.2.2.2.2.2.2.1).mem_erase_iff]
        simp
      · exact nodup_insertByPriority _ _ h _ hwf.2.2.2.2.1 hnready
      · exact hwf.2.2.2.2.2.1
      · exact (hwf.2.2.2.2.2.2.1).erase h
    · unfold resumeTask
      rw [hl]
      dsimp only
      rw [if_pos hst]
      exact hwf

theorem WF_blockTask (s : TaskManager) (h : Nat) (reason : String) (hwf : s.WF) :
    (s.blockTask h reason).2.WF := by
  cases hl : s.lookupTask h with
  | none =>
    unfold blockTask
    rw [hl]
    exact hwf
  | some t =>
    by_cases hst : t.state = .ready ∨ t.state = .running
    · rw [blockTask_eq s h t reason hl hst]
      have hmem := WF_mem_of_lookup s hwf h t hl
      have hnblocked : h ∉ s.blockedList := fun hc => by
        have := hmem.2.1.mp hc
        rcases hst with he | he <;> rw [he] at this <;> cases this
      have hnsusp : h ∉ s.suspendedList := fun hc => by
        have := hmem.2.2.mp hc
        rcases hst with he | he <;> rw [he] at this <;> cases this
      refine WF_retag s h t (fun u => { u with state := .blocked, blockedOn := some reason })
        hl (fun u => rfl) _ rfl rfl ?_ ?_ ?_ ?_ ?_ ?_ ?_ ?_ ?_ hwf
      · intro h' hne
        exact List.mem_erase_of_ne hne
      · intro h' hne
        show h' ∈ s.blockedList ++ [h] ↔ h' ∈ s.blockedList
        rw [List.mem_append, List.mem_singleton]
        exact ⟨fun hc => hc.elim id (fun he => absurd he hne), Or.inl⟩
      · intro h' hne
        exact Iff.rfl
      · show h ∈ s.readyList.erase h ↔ _
        rw [(hwf.2.2.2.2.1).mem_erase_iff]
        simp
      · show h ∈ s.blockedList ++ [h] ↔ _
        simp
      · show h ∈ s.suspendedList ↔ _
        simp [hnsusp]
      · exact (hwf.2.2.2.2.1).erase h
      · exact nodup_append_single _ h hwf.2.2.2.2.2.1 hnblocked
      · exact hwf.2.2.2.2.2.2.1
    · unfold blockTask
      rw [hl]
      dsimp only
      rw [if_pos (show t.state ≠ .ready ∧ t.state ≠ .running by
        constructor
        · exact fun he => hst (Or.inl he)
        · exact fun he => hst (Or.inr he))]
      exact hwf

theorem WF_unblockTask (s : TaskManager) (h : Nat) (hwf : s.WF) :
    (s.unblockTask h).2.WF := by
  cases hl : s.lookupTask h with
  | none =>
    unfold unblockTask
    rw [hl]
    exact hwf
  | some t =>
    by_cases hst : t.state = .blocked
    · rw [unblockTask_eq s h t hl hst]
      have hmem := WF_mem_of_lookup s hwf h t hl
      have hnready : h ∉ s.readyList := fun hc => by
        rcases hmem.1.mp hc with he | he <;> rw [hst] at he <;> cases he
      have hnsusp : h ∉ s.suspendedList := fun hc => by
        have := hmem.2.2.mp hc
        rw [hst] at this
        cases this
      have hl2 : (({ s with blockedList := s.blockedList.erase h } : TaskManager).updateTask h
          (fun u => { u with state := .ready, blockedOn := none })).lookupTask h =
          some { t with state := .ready, blockedOn := none } := by
        rw [lookupTask_updateTask _ h h
          (fun u => { u with state := .ready, blockedOn := none }) (fun u => rfl)]
        rw [if_pos rfl]
        rw [show ({ s with blockedList := s.blockedList.erase h } : TaskManager).lookupTask h
          = some t from hl]
        rfl
      rw [addToReadyList_spec _ h { t with state := .ready, blockedOn := none } hl2]
      refine WF_retag s h t (fun u => { u with state := .ready, blockedOn := none }) hl
        (fun u => rfl) _ rfl rfl ?_ ?_ ?_ ?_ ?_ ?_ ?_ ?_ ?_ hwf
      · intro h' hne
        show h' ∈ _ ↔ _
        rw [mem_insertByPriority]
        exact ⟨fun hc => hc.elim (fun he => absurd he hne) id, Or.inr⟩
      · intro h' hne
        exact List.mem_erase_of_ne hne
      · intro h' hne
        exact Iff.rfl
      · show h ∈ _ ↔ _
        rw [mem_insertByPriority]
        simp
      · show h ∈ s.blockedList.erase h ↔ _
        rw [(hwf.2.2.2.2.2.1).mem_erase_iff]
        simp
      · show h ∈ s.suspendedList ↔ _
        simp [hnsusp]
      · exact nodup_insertByPriority _ _ h _ hwf.2.2.2.2.1 hnready
      · exact (hwf.2.2.2.2.2.1).erase h
      · exact hwf.2.2.2.2.2.2.1
    · unfold unblockTask
      rw [hl]
      dsimp only
      rw [if_pos hst]
      exact hwf

theorem WF_of_eq_parts (s s' : TaskManager)
    (ht : s'.tasks = s.tasks) (hn : s'.nextHandle = s.nextHandle)
    (hr : s'.readyList = s.readyList) (hb : s'.blockedList = s.blockedList)
    (hs : s'.suspendedList = s.suspendedList) (hwf : s.WF) : s'.WF := by
  unfold WF lookupTask at hwf ⊢
  rw [ht, hn, hr, hb, hs]
  exact hwf

theorem WF_updateTask_keep_state (s : TaskManager) (h : Nat) (f : TCB → TCB)
    (hf : ∀ u, (f u).handle = u.handle) (hfs : ∀ u, (f u).state = u.state)
    (hwf : s.WF) : (s.updateTask h f).WF := by
  cases hl : s.lookupTask h with
  | none =>
    have htasks : (s.updateTask h f).tasks = s.tasks := by
      show s.tasks.map _ = s.tasks
      rw [TaskManager.lookupTask, List.find?_eq_none] at hl
      have hid : ∀ a ∈ s.tasks, (if a.handle == h then f a else a) = a := by
        intro a ha
        have := hl a ha
        simp only [beq_iff_eq] at this
        simp [this]
      rw [List.map_congr_left hid]
      simp
    exact WF_of_eq_parts s _ htasks rfl rfl rfl rfl hwf
  | some t =>
    have hmem := WF_mem_of_lookup s hwf h t hl
    refine WF_retag s h t f hl hf _ rfl rfl (fun _ _ => Iff.rfl) (fun _ _ => Iff.rfl)
      (fun _ _ => Iff.rfl) ?_ ?_ ?_ hwf.2.2.2.2.1 hwf.2.2.2.2.2.1 hwf.2.2.2.2.2.2.1 hwf
    · rw [hfs]
      exact hmem.1
    · rw [hfs]
      exact hmem.2.1
    · rw [hfs]
      exact hmem.2.2

theorem setTaskPriority_eq_ready (s : TaskManager) (h : Nat) (t : TCB) (p : Int)
    (hl : s.lookupTask h = some t) (hst : t.state = .ready) :
    (s.setTaskPriority h p).2 =
      ({ (s.updateTask h fun u => { u with priority := p }) with
         readyList := s.readyList.erase h } : TaskManager).addToReadyList h := by
  unfold setTaskPriority
  rw [hl]
  dsimp only
  rw [if_pos hst]
  rfl

theorem setTaskPriority_eq_other (s : TaskManager) (h : Nat) (t : TCB) (p : Int)
    (hl : s.lookupTask h = some t) (hst : t.state ≠ .ready) :
    (s.setTaskPriority h p).2 = s.updateTask h fun u => { u with priority := p } := by
  unfold setTaskPriority
  rw [hl]
  dsimp only
  rw [if_neg hst]

theorem WF_setTaskPriority (s : TaskManager) (h : Nat) (p : Int) (hwf : s.WF) :
    (s.setTaskPriority h p).2.WF := by
  cases hl : s.lookupTask h with
  | none =>
    unfold setTaskPriority
    rw [hl]
    exact hwf
  | some t =>
    by_cases hst : t.state = .ready
    · rw [setTaskPriority_eq_ready s h t p hl hst]
      have hmem := WF_mem_of_lookup s hwf h t hl
      have hl2 : (({ (s.updateTask h fun u => { u with priority := p }) with
          readyList := s.readyList.erase h } : TaskManager)).lookupTask h =
          some { t with priority := p } := by
        have heq : (({ (s.updateTask h fun u => { u with priority := p }) with
            readyList := s.readyList.erase h } : TaskManager)).lookupTask h =
            (s.updateTask h fun u => { u with priority := p }).lookupTask h :=
          lookupTask_eq_of_tasks_eq _ _ h rfl
        rw [heq, lookupTask_updateTask s h h (fun u => { u with priority := p }) (fun u => rfl)]
        rw [if_pos rfl, hl]
        rfl
      rw [addToReadyList_spec _ h { t with priority := p } hl2]
      have hnerase : h ∉ s.readyList.erase h := fun hc =>
        (hwf.2.2.2.2.1.mem_erase_iff.mp hc).1 rfl
      refine WF_retag s h t (fun u => { u with priority := p }) hl (fun u => rfl)
        _ rfl rfl ?_ ?_ ?_ ?_ ?_ ?_ ?_ ?_ ?_ hwf
      · intro h' hne
        show h' ∈ _ ↔ _
        rw [mem_insertByPriority, List.mem_erase_of_ne hne]
        exact ⟨fun hc => hc.elim (fun he => absurd he hne) id, Or.inr⟩
      · intro h' hne
        exact Iff.rfl
      · intro h' hne
        exact Iff.rfl
      · show h ∈ _ ↔ _
        rw [mem_insertByPriority]
        simp [hst]
      · show h ∈ s.blockedList ↔ _
        rw [hmem.2.1, hst]
      · show h ∈ s.suspendedList ↔ _
        rw [hmem.2.2, hst]
      · exact nodup_insertByPriority _ _ h _ (hwf.2.2.2.2.1.erase h) hnerase
      · exact hwf.2.2.2.2.2.1
      · exact hwf.2.2.2.2.2.2.1
    · rw [setTaskPriority_eq_other s h t p hl hst]
      exact WF_updateTask_keep_state s h _ (fun u => rfl) (fun u => rfl) hwf

theorem WF_setCurrentTask (s : TaskManager) (h? : Option Nat)
    (hg : ∀ h t, h? = some h → s.lookupTask h = some t → t.state ≠ .suspended)
    (hwf : s.WF) : (s.setCurrentTask h?).WF := by
  cases h? with
  | none => exact hwf
  | some h =>
    cases hl : s.lookupTask h with
    | none =>
      rw [setCurrentTask_eq_missing s h hl]
      exact hwf
    | some t =>
      by_cases hb : t.state = .blocked
      · rw [setCurrentTask_eq_blocked s h t hl hb]
        exact hwf
      · rw [setCurrentTask_some_spec s h t hl hb]
        have hns : t.state ≠ .suspended := hg h t rfl hl
        have hst : t.state = .ready ∨ t.state = .running := by
          cases htst : t.state with
          | ready => exact Or.inl rfl
          | running => exact Or.inr rfl
          | blocked => exact absurd htst hb
          | suspended => exact absurd htst hns
        have hmem := WF_mem_of_lookup s hwf h t hl
        refine WF_retag ({ s with currentTask := some h } : TaskManager) h t
          (fun u => { u with state := .running, runCount := u.runCount + 1 })
          hl (fun u => rfl) _ rfl rfl (fun _ _ => Iff.rfl) (fun _ _ => Iff.rfl)
          (fun _ _ => Iff.rfl) ?_ ?_ ?_
          hwf.2.2.2.2.1 hwf.2.2.2.2.2.1 hwf.2.2.2.2.2.2.1 hwf
        · show h ∈ s.readyList ↔ _
          constructor
          · intro _
            exact Or.inr rfl
          · intro _
            exact hmem.1.mpr hst
        · show h ∈ s.blockedList ↔ _
          constructor
          · intro hc
            exact absurd (hmem.2.1.mp hc) hb
          · intro hc
            cases hc
        · show h ∈ s.suspendedList ↔ _
          constructor
          · intro hc
            exact absurd (hmem.2.2.mp hc) hns
          · intro hc
            cases hc

theorem WF_yieldCurrentTask (s : TaskManager) (hwf : s.WF) : s.yieldCurrentTask.WF := by
  unfold yieldCurrentTask
  split
  · exact hwf
  · rename_i c hc
    split
    · exact hwf
    · rename_i t hl
      split
      · rename_i ht
        have hmem := WF_mem_of_lookup s hwf c t hl
        have hcr : c ∈ s.readyList := hmem.1.mpr (Or.inr ht)
        dsimp only
        rw [if_pos
          (show c ∈ (s.updateTask c fun u => { u with state := .ready }).readyList from hcr)]
        refine WF_retag s c t (fun u => { u with state := .ready }) hl (fun u => rfl)
          _ rfl rfl (fun _ _ => Iff.rfl) (fun _ _ => Iff.rfl) (fun _ _ => Iff.rfl) ?_ ?_ ?_
          hwf.2.2.2.2.1 hwf.2.2.2.2.2.1 hwf.2.2.2.2.2.2.1 hwf
        · show c ∈ s.readyList ↔ _
          simp [hcr]
        · show c ∈ s.blockedList ↔ _
          constructor
          · intro hcm
            have := hmem.2.1.mp hcm
            rw [ht] at this
            cases this
          · intro hcm
            cases hcm
        · show c ∈ s.suspendedList ↔ _
          constructor
          · intro hcm
            have := hmem.2.2.mp hcm
            rw [ht] at this
            cases this
          · intro hcm
            cases hcm
      · exact hwf

theorem WF_deleteTask (s : TaskManager) (h : Nat) (hwf : s.WF) :
    (s.deleteTask h).2.WF := by
  cases hl : s.lookupTask h with
  | none =>
    unfold deleteTask
    rw [hl]
    exact hwf
  | some t =>
    obtain ⟨hA, hR, hB, hS, hnr, hnb, hns, hnd, hbound⟩ := hwf
    obtain ⟨_, hnone, hothers, hready, hblocked, hsusp⟩ := deleteTask_parts s h t hl
    have htasks := deleteTask_tasks s h t hl
    have hnext := deleteTask_nextHandle s h t hl
    refine ⟨?_, ?_, ?_, ?_, ?_, ?_, ?_, ?_, ?_⟩
    · intro t' ht'
      rw [htasks] at ht'
      have hmf := List.mem_filter.mp ht'
      have ht'h : t'.handle ≠ h := by simpa using hmf.2
      rw [hready, hblocked, hsusp]
      refine ⟨?_, ?_, ?_⟩
      · rw [List.mem_erase_of_ne ht'h]
        exact (hA t' hmf.1).1
      · rw [List.mem_erase_of_ne ht'h]
        exact (hA t' hmf.1).2.1
      · rw [List.mem_erase_of_ne ht'h]
        exact (hA t' hmf.1).2.2
    · intro h' hm
      rw [hready] at hm
      have hem := hnr.mem_erase_iff.mp hm
      rw [hothers h' hem.1]
      exact hR h' hem.2
    · intro h' hm
      rw [hblocked] at hm
      have hem := hnb.mem_erase_iff.mp hm
      rw [hothers h' hem.1]
      exact hB h' hem.2
    · intro h' hm
      rw [hsusp] at hm
      have hem := hns.mem_erase_iff.mp hm
      rw [hothers h' hem.1]
      exact hS h' hem.2
    · rw [hready]
      exact hnr.erase h
    · rw [hblocked]
      exact hnb.erase h
    · rw [hsusp]
      exact hns.erase h
    · rw [htasks]
      exact hnd.sublist ((List.filter_sublist s.tasks).map TCB.handle)
    · intro t' ht'
      rw [htasks] at ht'
      rw [hnext]
      exact hbound t' (List.mem_filter.mp ht').1

theorem WF_append_ready (s : TaskManager) (tcb : TCB)
    (hhandle : tcb.handle = s.nextHandle) (hstate : tcb.state = .ready)
    (hwf : s.WF) :
    (({ s with tasks := s.tasks ++ [tcb], nextHandle := s.nextHandle + 1 }
      : TaskManager).addToReadyList tcb.handle).WF := by
  obtain ⟨hA, hR, hB, hS, hnr, hnb, hns, hnd, hbound⟩ := hwf
  have hfresh : ∀ u ∈ s.tasks, u.handle ≠ tcb.handle := by
    intro u hu he
    have := hbound u hu
    rw [hhandle] at he
    omega
  have hl0 : s.lookupTask tcb.handle = none :=
    lookup_none_of_fresh s tcb.handle hfresh
  have hl1 : ∀ X : TaskManager, X.tasks = s.tasks ++ [tcb] →
      X.lookupTask tcb.handle = some tcb := by
    intro X hX
    show X.tasks.find? _ = some tcb
    rw [hX, find?_append_none s.tasks [tcb] _ hl0, List.find?_cons]
    simp
  have hlook1 : ∀ X : TaskManager, X.tasks = s.tasks ++ [tcb] → ∀ h', h' ≠ tcb.handle →
      X.lookupTask h' = s.lookupTask h' := by
    intro X hX h' hne
    show X.tasks.find? _ = _
    rw [hX]
    cases hfind : s.lookupTask h' with
    | some u => exact find?_append_some s.tasks [tcb] _ u hfind
    | none =>
      rw [find?_append_none s.tasks [tcb] _ hfind, List.find?_cons]
      have hfb : (tcb.handle == h') = false := by
        simp only [beq_eq_false_iff_ne, ne_eq]
        exact fun he => hne he.symm
      rw [hfb]
      rfl
  have hnewready : tcb.handle ∉ s.readyList := by
    intro hm
    have := hR _ hm
    rw [hl0] at this
    simp at this
  have hnewblocked : tcb.handle ∉ s.blockedList := by
    intro hm
    have := hB _ hm
    rw [hl0] at this
    simp at this
  have hnewsusp : tcb.handle ∉ s.suspendedList := by
    intro hm
    have := hS _ hm
    rw [hl0] at this
    simp at this
  rw [addToReadyList_spec _ tcb.handle tcb (hl1 _ rfl)]
  refine ⟨?_, ?_, ?_, ?_, ?_, hnb, hns, ?_, ?_⟩
  · intro t' ht'
    rcases List.mem_append.mp ht' with hold | hnew
    · have ht'h : t'.handle ≠ tcb.handle := hfresh t' hold
      refine ⟨?_, (hA t' hold).2.1, (hA t' hold).2.2⟩
      show t'.handle ∈ _ ↔ _
      rw [mem_insertByPriority]
      constructor
      · rintro (he | hm)
        · exact absurd he ht'h
        · exact (hA t' hold).1.mp hm
      · intro hst
        exact Or.inr ((hA t' hold).1.mpr hst)
    · rw [List.mem_singleton] at hnew
      rw [hnew]
      refine ⟨?_, ?_, ?_⟩
      · show tcb.handle ∈ _ ↔ _
        rw [mem_insertByPriority]
        simp [hstate]
      · show tcb.handle ∈ s.blockedList ↔ _
        simp [hnewblocked, hstate]
      · show tcb.handle ∈ s.suspendedList ↔ _
        simp [hnewsusp, hstate]
  · intro h' hm
    rw [mem_insertByPriority] at hm
    rcases hm with he | hm
    · rw [he, hl1 _ rfl]
      rfl
    · by_cases he : h' = tcb.handle
      · rw [he, hl1 _ rfl]
        rfl
      · rw [hlook1 _ rfl h' he]
        exact hR h' hm
  · intro h' hm
    have he : h' ≠ tcb.handle := fun hx => hnewblocked (hx ▸ hm)
    rw [hlook1 _ rfl h' he]
    exact hB h' hm
  · intro h' hm
    have he : h' ≠ tcb.handle := fun hx => hnewsusp (hx ▸ hm)
    rw [hlook1 _ rfl h' he]
    exact hS h' hm
  · exact nodup_insertByPriority _ _ tcb.handle _ hnr hnewready
  · show ((s.tasks ++ [tcb]).map TCB.handle).Nodup
    rw [List.map_append]
    refine nodup_append_single _ _ hnd ?_
    intro hm
    obtain ⟨u, hu, hue⟩ := List.mem_map.mp hm
    exact hfresh u hu hue
  · intro t' ht'
    rcases List.mem_append.mp ht' with hold | hnew
    · have := hbound t' hold
      show t'.handle < s.nextHandle + 1
      omega
    · rw [List.mem_singleton] at hnew
      rw [hnew]
      show tcb.handle < s.nextHandle + 1
      rw [hhandle]
      omega

theorem WF_createTask (s : TaskManager) (n : String) (b : TaskBody) (p : Int)
    (hwf : s.WF) : (s.createTask n b p).2.WF :=
  WF_append_ready s _ rfl rfl hwf

end TaskManager

namespace Scheduler

theorem scheduleChoice_ready_ne_nil (s : Scheduler) (h : Nat)
    (hch : s.scheduleChoice = some h) : s.tm.readyList.isEmpty = false := by
  rcases he : s.tm.readyList.isEmpty with _ | _
  · rfl
  · rw [List.isEmpty_iff] at he
    rw [Scheduler.scheduleChoice, he] at hch
    simp at hch

theorem schedule_eq_pick_none (s : Scheduler) (h : Nat)
    (hch : s.scheduleChoice = some h) (hcurn : s.tm.currentTask = none) :
    s.schedule = Scheduler.runTask
      { s with currentTaskIndex := (s.currentTaskIndex + 1) % s.tm.readyList.length,
               tm := s.tm.setCurrentTask (some h) } h := by
  have hgc : s.tm.getCurrentTask = none := hcurn
  unfold schedule
  rw [scheduleChoice_ready_ne_nil s h hch]
  simp only [Bool.false_eq_true, if_false]
  rw [hch]
  dsimp only
  rw [if_pos (show ¬ s.tm.getCurrentTask = some h by
    intro hx; rw [hgc] at hx; exact Option.noConfusion hx)]
  rw [if_neg (not_not_intro hgc)]

theorem schedule_eq_pick_switch (s : Scheduler) (h c : Nat)
    (hch : s.scheduleChoice = some h) (hcur : s.tm.currentTask = some c) (hne : c ≠ h) :
    s.schedule = Scheduler.runTask
      { s with currentTaskIndex := (s.currentTaskIndex + 1) % s.tm.readyList.length,
               tm := (s.tm.yieldCurrentTask).setCurrentTask (some h) } h := by
  have hgc : s.tm.getCurrentTask = some c := hcur
  unfold schedule
  rw [scheduleChoice_ready_ne_nil s h hch]
  simp only [Bool.false_eq_true, if_false]
  rw [hch]
  dsimp only
  rw [if_pos (show ¬ s.tm.getCurrentTask = some h by
    intro hx; rw [hgc] at hx; exact hne (Option.some.inj hx))]
  rw [if_pos (show ¬ s.tm.getCurrentTask = none by
    intro hx; rw [hgc] at hx; exact Option.noConfusion hx)]

theorem WF_runTask (s : Scheduler) (h : Nat) (hwf : s.tm.WF) : (s.runTask h).tm.WF := by
  unfold Scheduler.runTask
  split
  · exact hwf
  · rename_i t hl
    split
    · exact TaskManager.WF_deleteTask s.tm h hwf
    · exact TaskManager.WF_deleteTask s.tm h hwf
    · rename_i v rest
      dsimp only
      split
      · rename_i d
        split
        · refine TaskManager.WF_blockTask _ h "delay" ?_
          refine TaskManager.WF_updateTask_keep_state _ h _ (fun u => rfl) (fun u => rfl) ?_
          exact TaskManager.WF_updateTask_keep_state s.tm h _ (fun u => rfl) (fun u => rfl) hwf
        · exact TaskManager.WF_updateTask_keep_state s.tm h _ (fun u => rfl) (fun u => rfl) hwf
      · exact TaskManager.WF_updateTask_keep_state s.tm h _ (fun u => rfl) (fun u => rfl) hwf
    · show (Scheduler.yield s).tm.WF
      unfold Scheduler.yield
      split
      · exact hwf
      · exact TaskManager.WF_yieldCurrentTask s.tm hwf
    · exact hwf

theorem WF_processDelayedOne (tm : TaskManager) (k : Nat) (hwf : tm.WF) :
    (processDelayedOne tm k).WF := by
  unfold processDelayedOne
  split
  · exact hwf
  · rename_i t hl
    split
    · dsimp only
      split
      · refine TaskManager.WF_unblockTask _ k ?_
        exact TaskManager.WF_updateTask_keep_state tm k _ (fun u => rfl) (fun u => rfl) hwf
      · exact TaskManager.WF_updateTask_keep_state tm k _ (fun u => rfl) (fun u => rfl) hwf
    · exact hwf

theorem WF_foldl_processDelayed (l : List Nat) (tm : TaskManager) (hwf : tm.WF) :
    (l.foldl processDelayedOne tm).WF := by
  induction l generalizing tm with
  | nil => exact hwf
  | cons k ks ih => exact ih _ (WF_processDelayedOne tm k hwf)

theorem WF_processDelayedTasks (s : Scheduler) (hwf : s.tm.WF) :
    (processDelayedTasks s).tm.WF :=
  WF_foldl_processDelayed _ s.tm hwf

theorem unblockTask_state_not_suspended (tm : TaskManager) (k h : Nat)
    (hns : ((tm.lookupTask h).map TCB.state) ≠ some .suspended) :
    (((tm.unblockTask k).2.lookupTask h).map TCB.state) ≠ some .suspended := by
  unfold TaskManager.unblockTask
  split
  · exact hns
  · rename_i t hl
    split
    · exact hns
    · dsimp only
      rw [TaskManager.lookupTask_addToReadyList]
      rw [TaskManager.lookupTask_updateTask _ k h
        (fun u => { u with state := .ready, blockedOn := none }) (fun u => rfl)]
      by_cases he : k = h
      · rw [if_pos he]
        rw [show ({ tm with blockedList := tm.blockedList.erase k } : TaskManager).lookupTask h
          = tm.lookupTask h from rfl]
        intro hc
        rcases hlx : tm.lookupTask h with _ | u
        · rw [hlx] at hc
          cases hc
        · rw [hlx] at hc
          simp at hc
      · rw [if_neg he]
        rw [show ({ tm with blockedList := tm.blockedList.erase k } : TaskManager).lookupTask h
          = tm.lookupTask h from rfl]
        exact hns

theorem processDelayedOne_state_not_suspended (tm : TaskManager) (k h : Nat)
    (hns : ((tm.lookupTask h).map TCB.state) ≠ some .suspended) :
    (((processDelayedOne tm k).lookupTask h).map TCB.state) ≠ some .suspended := by
  unfold processDelayedOne
  split
  · exact hns
  · rename_i t hl
    split
    · dsimp only
      have hns1 : (((tm.updateTask k fun u => { u with delayTicks := u.delayTicks - 1 }).lookupTask
          h).map TCB.state) ≠ some .suspended := by
        rw [TaskManager.lookupTask_updateTask _ k h
          (fun u => { u with delayTicks := u.delayTicks - 1 }) (fun u => rfl)]
        by_cases he : k = h
        · rw [if_pos he]
          intro hc
          rcases hlx : tm.lookupTask h with _ | u
          · rw [hlx] at hc
            cases hc
          · rw [hlx] at hc
            simp at hc
            exact hns (by rw [hlx]; simpa using hc)
        · rw [if_neg he]
          exact hns
      split
      · exact unblockTask_state_not_suspended _ k h hns1
      · exact hns1
    · exact hns

theorem foldl_processDelayed_not_suspended (l : List Nat) (tm : TaskManager) (h : Nat)
    (hns : ((tm.lookupTask h).map TCB.state) ≠ some .suspended) :
    (((l.foldl processDelayedOne tm).lookupTask h).map TCB.state) ≠ some .suspended := by
  induction l generalizing tm with
  | nil => exact hns
  | cons k ks ih => exact ih _ (processDelayedOne_state_not_suspended tm k h hns)

theorem WF_ready_not_suspended (tm : TaskManager) (hwf : tm.WF) (h : Nat) (t : TCB)
    (hm : h ∈ tm.readyList) (hl : tm.lookupTask h = some t) : t.state ≠ .suspended := by
  have := (TaskManager.WF_mem_of_lookup tm hwf h t hl).1.mp hm
  rcases this with he | he <;> rw [he] <;> decide

theorem WF_schedule (s : Scheduler)
    (hg : ∀ idle t, s.idleTaskHandle = some idle →
      s.tm.lookupTask idle = some t → t.state ≠ .suspended)
    (hwf : s.tm.WF) : (s.schedule).tm.WF := by
  unfold Scheduler.schedule
  split
  · split
    · exact hwf
    · rename_i idle hidle
      refine WF_runTask _ idle ?_
      show (s.tm.setCurrentTask (some idle)).WF
      refine TaskManager.WF_setCurrentTask s.tm (some idle) ?_ hwf
      intro h2 t2 he hlt
      have heq : idle = h2 := Option.some.inj he
      rw [← heq] at hlt
      exact hg idle t2 hidle hlt
  · split
    · exact hwf
    · rename_i nxt hch
      unfold Scheduler.scheduleChoice at hch
      have hmem : nxt ∈ s.tm.readyList := List.get?_mem hch
      dsimp only
      refine WF_runTask _ nxt ?_
      split
      · rename_i hcur
        dsimp only
        split
        · refine TaskManager.WF_setCurrentTask _ (some nxt) ?_
            (TaskManager.WF_yieldCurrentTask s.tm hwf)
          intro h2 t2 he hlt
          have heq : nxt = h2 := Option.some.inj he
          rw [← heq] at hlt
          have hcur' : s.tm.currentTask ≠ some nxt := hcur
          rw [TaskManager.lookupTask_yieldCurrentTask_ne s.tm nxt hcur'] at hlt
          exact WF_ready_not_suspended s.tm hwf nxt t2 hmem hlt
        · refine TaskManager.WF_setCurrentTask _ (some nxt) ?_ hwf
          intro h2 t2 he hlt
          have heq : nxt = h2 := Option.some.inj he
          rw [← heq] at hlt
          exact WF_ready_not_suspended s.tm hwf nxt t2 hmem hlt
      · exact hwf

theorem WF_tick (s : Scheduler)
    (hg : ∀ idle t, s.idleTaskHandle = some idle →
      s.tm.lookupTask idle = some t → t.state ≠ .suspended)
    (hwf : s.tm.WF) : (s.tick).tm.WF := by
  unfold Scheduler.tick
  refine WF_schedule _ ?_ (WF_processDelayedTasks _ hwf)
  intro idle t hidle hlt hc
  have hns : ((s.tm.lookupTask idle).map TCB.state) ≠ some .suspended := by
    intro hc2
    rcases hlx : s.tm.lookupTask idle with _ | u
    · rw [hlx] at hc2
      cases hc2
    · rw [hlx] at hc2
      simp at hc2
      exact hg idle u hidle hlx hc2
  refine foldl_processDelayed_not_suspended (s.tm.tasks.map TCB.handle) s.tm idle hns ?_
  rw [show ((s.tm.tasks.map TCB.handle).foldl processDelayedOne s.tm).lookupTask idle
    = some t from hlt]
  simp [hc]

theorem runTask_raise (s : Scheduler) (h : Nat) (t : TCB) (rest : List StepRes)
    (hl : s.tm.lookupTask h = some t) (hb : t.body = .gen (.raise :: rest)) :
    s.runTask h = { s with tm := (s.tm.deleteTask h).2 } := by
  unfold runTask
  rw [hl]
  dsimp only
  rw [hb]

theorem runTask_yield_nonMarker (s : Scheduler) (h : Nat) (t : TCB) (rest : List StepRes)
    (hl : s.tm.lookupTask h = some t) (hb : t.body = .gen (.yielded .nonMarker :: rest)) :
    s.runTask h = { s with tm := s.tm.updateTask h (fun u => { u with body := .gen rest }) } := by
  unfold runTask
  rw [hl]
  dsimp only
  rw [hb]

end Scheduler

/-!  Claim theorems. -/

/-- C1 counterexample: after two ticks the ready list is `[2, 3, 1]` with
head task 2 (READY, priority 5) — yet the third tick's selection
(`readyTasks[currentTaskIndex % length]`) picks the idle task 1
(priority 0) and advances it (its `runCount` becomes 1), leaving task 2
unadvanced.  The scheduler does not select the head of the ready queue. -/
theorem c1_counterexample :
    twoTaskTrace.tm.readyList = [2, 3, 1] ∧
    twoTaskTrace.tm.getNextTask = some 2 ∧
    (twoTaskTrace.tm.lookupTask 2).map (fun t => (t.state, t.priority)) =
      some (.ready, 5) ∧
    (twoTaskTrace.tm.lookupTask 1).map (fun t => (t.state, t.priority)) =
      some (.ready, 0) ∧
    twoTaskTrace.scheduleChoice = some 1 ∧
    (twoTaskTrace.tm.lookupTask 1).map TCB.runCount = some 0 ∧
    (twoTaskTrace.tick.tm.lookupTask 1).map TCB.runCount = some 1 ∧
    (twoTaskTrace.tick.tm.lookupTask 2).map TCB.runCount = some 1 := by decide

/-- C1 (amended): on a tick with a non-empty ready list the scheduler
selects `readyTasks[currentTaskIndex % length]` — a rotating index over the
whole ready list, regardless of priority or queue position — advances the
rotating index by one (mod length), context-switches to the selected task
and advances its unit by one step. -/
theorem c1_rotating_selection (s : Scheduler) (h : Nat) (t : TCB) (rest : List StepRes)
    (hch : s.scheduleChoice = some h)
    (hl : s.tm.lookupTask h = some t)
    (hb : t.body = .gen (.yielded .nonMarker :: rest))
    (hbl : t.state ≠ .blocked)
    (hcur : s.tm.currentTask ≠ some h) :
    (s.schedule).currentTaskIndex = (s.currentTaskIndex + 1) % s.tm.readyList.length ∧
    (s.schedule).tm.currentTask = some h ∧
    ((s.schedule).tm.lookupTask h).map (fun u => (u.state, u.runCount, u.body)) =
      some (.running, t.runCount + 1, .gen rest) := by
  have key : ∀ TM : TaskManager, TM.lookupTask h = some t →
      (Scheduler.runTask
        { s with currentTaskIndex := (s.currentTaskIndex + 1) % s.tm.readyList.length,
                 tm := TM.setCurrentTask (some h) } h).currentTaskIndex =
        (s.currentTaskIndex + 1) % s.tm.readyList.length ∧
      (Scheduler.runTask
        { s with currentTaskIndex := (s.currentTaskIndex + 1) % s.tm.readyList.length,
                 tm := TM.setCurrentTask (some h) } h).tm.currentTask = some h ∧
      ((Scheduler.runTask
        { s with currentTaskIndex := (s.currentTaskIndex + 1) % s.tm.readyList.length,
                 tm := TM.setCurrentTask (some h) } h).tm.lookupTask h).map
          (fun u => (u.state, u.runCount, u.body)) =
        some (.running, t.runCount + 1, .gen rest) := by
    intro TM hTL
    have hl2 : (TM.setCurrentTask (some h)).lookupTask h =
        some { t with state := .running, runCount := t.runCount + 1 } :=
      TaskManager.lookupTask_setCurrentTask_self TM h t hTL hbl
    have hb2 : ({ t with state := .running, runCount := t.runCount + 1 } : TCB).body =
        .gen (.yielded .nonMarker :: rest) := hb
    rw [Scheduler.runTask_yield_nonMarker _ h _ rest hl2 hb2]
    refine ⟨rfl, ?_, ?_⟩
    · show ((TM.setCurrentTask (some h)).updateTask h _).currentTask = some h
      rw [TaskManager.updateTask_currentTask]
      exact TaskManager.setCurrentTask_currentTask TM (some h)
    · show (((TM.setCurrentTask (some h)).updateTask h _).lookupTask h).map _ = _
      rw [TaskManager.lookupTask_updateTask _ h h
        (fun u => { u with body := .gen rest }) (fun u => rfl)]
      rw [if_pos rfl, hl2]
      rfl
  rcases hc : s.tm.currentTask with _ | c
  · rw [Scheduler.schedule_eq_pick_none s h hch hc]
    exact key s.tm hl
  · have hcne : c ≠ h := fun he => hcur (by rw [hc, he])
    rw [Scheduler.schedule_eq_pick_switch s h c hch hc hcne]
    refine key s.tm.yieldCurrentTask ?_
    rw [TaskManager.lookupTask_yieldCurrentTask_ne s.tm h hcur]
    exact hl

/-- C1 witness: the amended statement evaluated on the two-task setup
before its first tick (rotating index 0 selects task 2). -/
theorem c1_witness :
    (preTickTrace.schedule).currentTaskIndex =
      (preTickTrace.currentTaskIndex + 1) % preTickTrace.tm.readyList.length ∧
    (preTickTrace.schedule).tm.currentTask = some 2 ∧
    ((preTickTrace.schedule).tm.lookupTask 2).map (fun u => (u.state, u.runCount, u.body)) =
      some (.running, 0 + 1, .gen [yStep, yStep]) :=
  c1_rotating_selection preTickTrace 2
    { handle := 2, name := "A", priority := 5, state := .ready, delayTicks := 0,
      blockedOn := none, runCount := 0, body := .gen [yStep, yStep, yStep] }
    [yStep, yStep] (by decide) (by decide) (by decide) (by decide) (by decide)

/-- C7: when a generator task's `next()` raises, `runTask` deletes exactly
that task — afterwards it is absent from the task map and from the ready,
blocked and suspended lists — while every other task's TCB (all fields,
including its generator position) and list memberships are unchanged. -/
theorem c7_raise_deletes_only_failing_task (s : Scheduler) (h : Nat) (t : TCB)
    (rest : List StepRes) (hl : s.tm.lookupTask h = some t)
    (hb : t.body = .gen (.raise :: rest))
    (hr : s.tm.readyList.Nodup) (hbl : s.tm.blockedList.Nodup)
    (hsl : s.tm.suspendedList.Nodup) :
    ((s.runTask h).tm.lookupTask h = none ∧
     h ∉ (s.runTask h).tm.readyList ∧ h ∉ (s.runTask h).tm.blockedList ∧
     h ∉ (s.runTask h).tm.suspendedList) ∧
    ∀ h', h' ≠ h →
      (s.runTask h).tm.lookupTask h' = s.tm.lookupTask h' ∧
      (h' ∈ (s.runTask h).tm.readyList ↔ h' ∈ s.tm.readyList) ∧
      (h' ∈ (s.runTask h).tm.blockedList ↔ h' ∈ s.tm.blockedList) ∧
      (h' ∈ (s.runTask h).tm.suspendedList ↔ h' ∈ s.tm.suspendedList) := by
  rw [Scheduler.runTask_raise s h t rest hl hb]
  obtain ⟨_, hnone, hothers, hready, hblocked, hsusp⟩ :=
    TaskManager.deleteTask_parts s.tm h t hl
  dsimp only
  refine ⟨⟨hnone, ?_, ?_, ?_⟩, ?_⟩
  · rw [hready]
    exact fun hmem => ((hr.mem_erase_iff).mp hmem).1 rfl
  · rw [hblocked]
    exact fun hmem => ((hbl.mem_erase_iff).mp hmem).1 rfl
  · rw [hsusp]
    exact fun hmem => ((hsl.mem_erase_iff).mp hmem).1 rfl
  · intro h' hph
    refine ⟨hothers h' hph, ?_, ?_, ?_⟩
    · rw [hready]
      exact List.mem_erase_of_ne hph
    · rw [hblocked]
      exact List.mem_erase_of_ne hph
    · rw [hsusp]
      exact List.mem_erase_of_ne hph

/-- C7 witness: evaluated on the trace whose task 2 raises on its first
step (task 1, the idle task, is untouched). -/
theorem c7_witness :
    (raiseTrace.runTask 2).tm.lookupTask 2 = none ∧
    2 ∉ (raiseTrace.runTask 2).tm.readyList ∧
    (raiseTrace.runTask 2).tm.lookupTask 1 = raiseTrace.tm.lookupTask 1 ∧
    (1 ∈ (raiseTrace.runTask 2).tm.readyList ↔ 1 ∈ raiseTrace.tm.readyList) :=
  have H := c7_raise_deletes_only_failing_task raiseTrace 2
    { handle := 2, name := "A", priority := 5, state := .ready, delayTicks := 0,
      blockedOn := none, runCount := 0, body := .gen [.raise] }
    [] (by decide) (by decide) (by decide) (by decide) (by decide)
  ⟨H.1.1, H.1.2.1, (H.2 1 (by decide)).1, (H.2 1 (by decide)).2.1⟩

/-- C3 counterexample: in statement-level mode a body of two top-level
statements with no `delay` call is wrapped in the trivial unit (the
no-delay branch of `transformTaskFunction` fires before the mode is
consulted), so its very first `step()` reports `done = true` and the unit
completes in 1 call, not the claimed `k = 2` with `done = false` first. -/
theorem c3_counterexample :
    RTOSParser.transformTaskFunction true [.plain, .plain] =
      .unit ⟨[], [.plain, .plain]⟩ ∧
    RTOSParser.stepResult ⟨[], [.plain, .plain]⟩ 1 = .done ∧
    RTOSParser.doneCall ⟨[], [.plain, .plain]⟩ = 1 ∧ (1 : Nat) ≠ 2 :=
  ⟨rfl, rfl, rfl, by decide⟩

/-- C3 (amended): in statement-level mode, a task body whose `k` top-level
statements contain no `delay` call is wrapped in the trivial restartable
unit: its first `step()` runs the whole body and returns `done = true`, so
it completes in exactly one `step()` call regardless of `k`. -/
theorem c3_stmt_mode_no_delay_trivial (body : List SrcStmt)
    (hnd : RTOSParser.hasDelayCallInAST body = false) :
    RTOSParser.transformTaskFunction true body = .unit ⟨[], body⟩ ∧
    RTOSParser.stepResult ⟨[], body⟩ 1 = .done ∧
    RTOSParser.doneCall ⟨[], body⟩ = 1 := by
  refine ⟨?_, rfl, rfl⟩
  simp [RTOSParser.transformTaskFunction, hnd]

/-- C3 witness: the amended statement evaluated on a three-statement body. -/
theorem c3_witness :
    RTOSParser.transformTaskFunction true [.plain, .plain, .plain] =
      .unit ⟨[], [.plain, .plain, .plain]⟩ ∧
    RTOSParser.stepResult ⟨[], [.plain, .plain, .plain]⟩ 1 = .done ∧
    RTOSParser.doneCall ⟨[], [.plain, .plain, .plain]⟩ = 1 :=
  c3_stmt_mode_no_delay_trivial [.plain, .plain, .plain] (by decide)

/-- C8: in delay-only mode, a task body with no `delay` call is wrapped in
the trivial restartable unit whose first `step()` runs the entire original
body (in order, unchanged) and returns `done = true`: the unit completes on
the first step. -/
theorem c8_delay_only_no_delay_trivial (body : List SrcStmt)
    (hnd : RTOSParser.hasDelayCallInAST body = false) :
    RTOSParser.transformTaskFunction false body = .unit ⟨[], body⟩ ∧
    RTOSParser.stepResult ⟨[], body⟩ 1 = .done ∧
    RTOSParser.doneCall ⟨[], body⟩ = 1 := by
  refine ⟨?_, rfl, rfl⟩
  simp [RTOSParser.transformTaskFunction, hnd]

/-- C8 witness: the statement evaluated on a one-statement body. -/
theorem c8_witness :
    RTOSParser.transformTaskFunction false [.plain] = .unit ⟨[], [.plain]⟩ ∧
    RTOSParser.stepResult ⟨[], [.plain]⟩ 1 = .done ∧
    RTOSParser.doneCall ⟨[], [.plain]⟩ = 1 :=
  c8_delay_only_no_delay_trivial [.plain] (by decide)

/-- C4 counterexample: with task 2 RUNNING and current, `delay(-3)` returns
`{delayTicks: -3}`, not the claimed clamped `{delayTicks: max 0 (-3)}`. -/
theorem c4_counterexample :
    (runningTrace.tm.lookupTask 2).map TCB.state = some .running ∧
    runningTrace.tm.currentTask = some 2 ∧
    runningTrace.delay (-3) = ⟨-3⟩ ∧
    ¬ ((-3 : Int) = max 0 (-3)) := by decide

/-- C4 (amended): `delay(n)` invoked while a current task is set (and its
TCB exists) returns `{delayTicks: n}` with no clamping; `delay(n)` and
`delayMs(ms)` invoked with no current task return `{delayTicks: 0}` and
never throw. -/
theorem c4_delay_unclamped (s : Scheduler) (n ms : Int) :
    (s.tm.currentTask = none → s.delay n = ⟨0⟩ ∧ s.delayMs ms = ⟨0⟩) ∧
    (∀ h, s.tm.currentTask = some h → (s.tm.lookupTask h).isSome →
      s.delay n = ⟨n⟩) := by
  constructor
  · intro hc
    constructor
    · simp [Scheduler.delay, TaskManager.getCurrentTask, hc]
    · simp [Scheduler.delayMs, Scheduler.delay, TaskManager.getCurrentTask, hc]
  · intro h hc hs
    obtain ⟨t, ht⟩ := Option.isSome_iff_exists.mp hs
    simp [Scheduler.delay, TaskManager.getCurrentTask, hc, ht]

/-- C4 witness: the amended statement evaluated with no current task and on
the running trace. -/
theorem c4_witness :
    (Scheduler.construct 10).delay 7 = ⟨0⟩ ∧
    (Scheduler.construct 10).delayMs 123 = ⟨0⟩ ∧
    runningTrace.delay (-3) = ⟨-3⟩ :=
  ⟨((c4_delay_unclamped (Scheduler.construct 10) 7 123).1 (by decide)).1,
   ((c4_delay_unclamped (Scheduler.construct 10) 7 123).1 (by decide)).2,
   (c4_delay_unclamped runningTrace (-3) 0).2 2 (by decide) (by decide)⟩

/-- C5 counterexample: after one tick, task 2 is BLOCKED with
`delayTicks = 5`; the public `unblockTask` then returns it to READY with
`delayTicks` still 5 (not zeroed), so `delayTicks > 0` no longer implies
BLOCKED; and a yielded marker `{delayTicks: -3}` blocks the task with a
negative `delayTicks`. -/
theorem c5_counterexample :
    (delayTrace.tm.lookupTask 2).map (fun t => (t.state, t.delayTicks)) =
      some (.blocked, 5) ∧
    ((delayTrace.tm.unblockTask 2).2.lookupTask 2).map
      (fun t => (t.state, t.delayTicks, t.blockedOn)) = some (.ready, 5, none) ∧
    (negDelayTrace.tm.lookupTask 2).map (fun t => (t.state, t.delayTicks)) =
      some (.blocked, -3) := by decide

/-- C5 (amended): `unblockTask` on a BLOCKED task succeeds, clears
`blockedOn` and returns the task to READY, but leaves `delayTicks`
unchanged (every other TCB field is also untouched). -/
theorem c5_unblock_keeps_delayTicks (tm : TaskManager) (h : Nat) (t : TCB)
    (hl : tm.lookupTask h = some t) (hb : t.state = .blocked) :
    (tm.unblockTask h).1 = true ∧
    (tm.unblockTask h).2.lookupTask h =
      some { t with state := .ready, blockedOn := none } := by
  unfold TaskManager.unblockTask
  rw [hl]
  dsimp only
  rw [if_neg (not_not_intro hb)]
  refine ⟨rfl, ?_⟩
  rw [TaskManager.lookupTask_addToReadyList]
  rw [TaskManager.lookupTask_updateTask _ h h
    (fun u => { u with state := .ready, blockedOn := none }) (fun u => rfl)]
  rw [if_pos rfl]
  rw [show ({ tm with blockedList := tm.blockedList.erase h } : TaskManager).lookupTask h
    = some t from hl]
  rfl

/-- C5 witness: the amended statement evaluated on the delay trace. -/
theorem c5_witness :
    (delayTrace.tm.unblockTask 2).1 = true ∧
    (delayTrace.tm.unblockTask 2).2.lookupTask 2 =
      some { delayTCB with state := .ready, blockedOn := none } :=
  c5_unblock_keeps_delayTicks delayTrace.tm 2 delayTCB (by decide) (by decide)

/-- C6 counterexample: immediately after construction, `suspendTask` on the
idle task's handle succeeds and leaves the idle task SUSPENDED, so public
operations can violate the claimed protection. -/
theorem c6_counterexample :
    ((Scheduler.construct 10).suspendTask 1).1 = true ∧
    (((Scheduler.construct 10).suspendTask 1).2.tm.lookupTask 1).map TCB.state =
      some .suspended ∧
    (Scheduler.construct 10).idleTaskHandle = some 1 := by decide

/-- C6 (amended): exactly one idle task exists after Kernel construction,
created with lowest priority 0 and state READY; but it is unprotected:
`suspendTask` on its handle succeeds (leaving it SUSPENDED) and
`deleteTask` succeeds (leaving the kernel with no tasks at all). -/
theorem c6_idle_unprotected :
    (Scheduler.construct 10).tm.tasks.map TCB.handle = [1] ∧
    (Scheduler.construct 10).idleTaskHandle = some 1 ∧
    ((Scheduler.construct 10).tm.lookupTask 1).map (fun t => (t.priority, t.state)) =
      some (0, .ready) ∧
    ((Scheduler.construct 10).suspendTask 1).1 = true ∧
    (((Scheduler.construct 10).suspendTask 1).2.tm.lookupTask 1).map TCB.state =
      some .suspended ∧
    ((Scheduler.construct 10).deleteTask 1).1 = true ∧
    ((Scheduler.construct 10).deleteTask 1).2.tm.tasks = [] := by decide

/-- C9: suspending the currently running task succeeds and marks it
SUSPENDED, yet the running slot is not cleared: `getCurrentTask` and
`getSystemStatus().currentTask` still report the task; `deleteTask` of the
running task, in contrast, clears the slot. -/
theorem c9_suspend_keeps_running_slot (s : Scheduler) (h : Nat) (t : TCB)
    (hcur : s.tm.currentTask = some h) (hl : s.tm.lookupTask h = some t)
    (hns : t.state ≠ .suspended) :
    (s.suspendTask h).1 = true ∧
    (s.suspendTask h).2.tm.currentTask = some h ∧
    ((s.suspendTask h).2.tm.lookupTask h).map TCB.state = some .suspended ∧
    ((s.suspendTask h).2.getSystemStatus).currentTask = some h ∧
    (s.deleteTask h).2.tm.currentTask = none := by
  obtain ⟨h1, h2, h3⟩ := TaskManager.suspendTask_parts s.tm h t hl hns
  refine ⟨h1, ?_, ?_, ?_, ?_⟩
  · show (s.tm.suspendTask h).2.currentTask = some h
    rw [h2, hcur]
  · show ((s.tm.suspendTask h).2.lookupTask h).map TCB.state = some .suspended
    rw [h3]
    rfl
  · show (s.tm.suspendTask h).2.currentTask = some h
    rw [h2, hcur]
  · show (s.tm.deleteTask h).2.currentTask = none
    exact TaskManager.deleteTask_currentTask_self s.tm h t hl hcur

/-- C9 witness: evaluated on the trace where task 2 is RUNNING and current. -/
theorem c9_witness :
    (runningTrace.suspendTask 2).1 = true ∧
    (runningTrace.suspendTask 2).2.tm.currentTask = some 2 ∧
    ((runningTrace.suspendTask 2).2.tm.lookupTask 2).map TCB.state = some .suspended ∧
    ((runningTrace.suspendTask 2).2.getSystemStatus).currentTask = some 2 ∧
    (runningTrace.deleteTask 2).2.tm.currentTask = none :=
  c9_suspend_keeps_running_slot runningTrace 2
    { handle := 2, name := "A", priority := 5, state := .running, delayTicks := 0,
      blockedOn := none, runCount := 1, body := .gen [yStep] }
    (by decide) (by decide) (by decide)

/-- C10: whenever `start()` runs on a stopped scheduler it resets the tick
counter to 0 (and marks the scheduler running), so `getTickCount` reads 0
after any `stop(); start()` sequence. -/
theorem c10_start_resets_tick_count (s : Scheduler) :
    (s.isRunning = false → (s.start).tickCount = 0 ∧ (s.start).isRunning = true) ∧
    (s.stop.start).getTickCount = 0 := by
  constructor
  · intro hr
    unfold Scheduler.start
    rw [hr]
    exact ⟨rfl, rfl⟩
  · unfold Scheduler.getTickCount Scheduler.stop Scheduler.start
    by_cases hr : s.isRunning
    · simp [hr]
    · simp [hr]

/-- C2 counterexample: after one tick, task 2 is RUNNING and is the
current task, yet it is still a member of the ready list — contradicting
both "the currently-running task is a member of none of the three lists"
and "in the ready list iff state = READY". -/
theorem c2_counterexample :
    runningTrace.tm.currentTask = some 2 ∧
    (runningTrace.tm.lookupTask 2).map TCB.state = some .running ∧
    2 ∈ runningTrace.tm.readyList := by decide

/-- C2 (amended): after every public operation and every tick, membership
matches state with the ready list covering both READY and RUNNING (the
running task stays in the ready list); lists hold live handles without
duplicates; handles stay unique and below the allocation counter — all
provided `setCurrentTask` does not target a SUSPENDED task and no tick
occurs while the idle task is SUSPENDED (`opGuard`). -/
theorem c2_membership_invariant (s : Scheduler) (op : KernelOp)
    (hwf : s.tm.WF) (hg : opGuard s op) : (applyOp s op).tm.WF := by
  cases op with
  | create n b p => exact TaskManager.WF_createTask s.tm n b p hwf
  | delete h => exact TaskManager.WF_deleteTask s.tm h hwf
  | suspend h => exact TaskManager.WF_suspendTask s.tm h hwf
  | resume h => exact TaskManager.WF_resumeTask s.tm h hwf
  | block h r => exact TaskManager.WF_blockTask s.tm h r hwf
  | unblock h => exact TaskManager.WF_unblockTask s.tm h hwf
  | setPriority h p => exact TaskManager.WF_setTaskPriority s.tm h p hwf
  | setCurrent h? =>
    refine TaskManager.WF_setCurrentTask s.tm h? ?_ hwf
    intro h t he hl
    cases h? with
    | none => cases he
    | some k =>
      have heq : k = h := Option.some.inj he
      rw [← heq] at hl
      have := hg t hl
      rw [heq] at hl
      exact fun hc => this hc
  | yieldCur => exact TaskManager.WF_yieldCurrentTask s.tm hwf
  | tickOp => exact Scheduler.WF_tick s hg hwf

/-- C2 witness: the invariant holds after creating a task on a freshly
constructed scheduler (whose state satisfies the invariant). -/
theorem c2_witness :
    (applyOp (Scheduler.construct 10) (.create "A" .noopFn 5)).tm.WF :=
  c2_membership_invariant (Scheduler.construct 10) (.create "A" .noopFn 5)
    (by decide) trivial

/-- C10 witness: evaluated on a stopped scheduler and on a running trace. -/
theorem c10_witness :
    ((Scheduler.construct 10).start).tickCount = 0 ∧
    ((Scheduler.construct 10).start).isRunning = true ∧
    (runningTrace.stop.start).getTickCount = 0 :=
  ⟨((c10_start_resets_tick_count (Scheduler.construct 10)).1 (by decide)).1,
   ((c10_start_resets_tick_count (Scheduler.construct 10)).1 (by decide)).2,
   (c10_start_resets_tick_count runningTrace).2⟩

end RTOS
